import Mathlib

/-!
# Product API: validation, configuration and the notification pipeline

A shallow embedding of `main.go`: the pure helpers (`validateProduct`,
`loadConfig`), the request handler `handleCreateProduct`, and a small-step
model of the goroutines that share `notificationCh` (request handlers, the
deferred senders spawned when the channel is full, `backgroundNotifier`, and
the `waitForShutdown` / `main` flow).
-/

namespace Livecoding

/-! ## Go values -/

/-- IEEE-754 binary64, the representation of Go's `float64`, by its three bit fields. -/
structure Float64 where
  sign : Bool
  exponent : Fin 2048
  mantissa : Fin 4503599627370496
deriving DecidableEq, Repr

namespace Float64

/-- Not-a-number: all exponent bits set, non-zero fraction. -/
def isNaN (x : Float64) : Bool := x.exponent.val == 2047 && x.mantissa.val != 0

/-- Positive or negative infinity. -/
def isInf (x : Float64) : Bool := x.exponent.val == 2047 && x.mantissa.val == 0

/-- Neither NaN nor an infinity. -/
def isFinite (x : Float64) : Bool := x.exponent.val != 2047

/-- Positive or negative zero. -/
def isZero (x : Float64) : Bool := x.exponent.val == 0 && x.mantissa.val == 0

/-- Sign-magnitude reading of the bits; on non-NaN values its order is the IEEE order
(both zeros read as `0`, the infinities as the two extremes). -/
def key (x : Float64) : Int :=
  let mag : Int := (x.exponent.val * 4503599627370496 + x.mantissa.val : Nat)
  if x.sign then -mag else mag

/-- Go's `a < b` on `float64`: false as soon as one operand is NaN. -/
def lt (a b : Float64) : Bool := !a.isNaN && !b.isNaN && decide (a.key < b.key)

/-- Go's `a <= b` on `float64`: false as soon as one operand is NaN. -/
def le (a b : Float64) : Bool := !a.isNaN && !b.isNaN && decide (a.key ≤ b.key)

/-- The constant `0` converted to `float64`. -/
def zero : Float64 := ⟨false, 0, 0⟩

/-- The real number a finite value stands for (`none` for NaN and the infinities). -/
def toRat (x : Float64) : Option ℚ :=
  if x.exponent.val = 2047 then none
  else
    let m : ℚ :=
      if x.exponent.val = 0 then (x.mantissa.val : ℚ) * (2 : ℚ) ^ (-1074 : Int)
      else ((4503599627370496 + x.mantissa.val : Nat) : ℚ) * (2 : ℚ) ^ ((x.exponent.val : Int) - 1075)
    some (if x.sign then -m else m)

end Float64

/-- Go's `unicode.IsSpace`: the Latin-1 spaces and the code points with the
White_Space property. -/
def isSpace (c : Char) : Bool :=
  let n := c.toNat
  (9 ≤ n && n ≤ 13) || n == 32 || n == 133 || n == 160 || n == 5760 ||
  (8192 ≤ n && n ≤ 8202) || n == 8232 || n == 8233 || n == 8239 || n == 8287 || n == 12288

/-- Go's `strings.TrimSpace`: leading and trailing white space removed. -/
def TrimSpace (s : String) : String :=
  String.mk (((s.data.dropWhile isSpace).reverse.dropWhile isSpace).reverse)

/-- The process environment as a list of `KEY=value` entries. -/
abbrev Env := List (String × String)

/-- Go's `os.Getenv`: the value of the first entry for `key`, empty when unset. -/
def Getenv (env : Env) (key : String) : String := (env.lookup key).getD ""

/-! ## Data model (`main.go` lines 20-32, 77-81) -/

/-- The `Product` struct. -/
structure Product where
  ID : Int
  Name : String
  Price : Float64
  Stock : Int
deriving DecidableEq, Repr

/-- The `Config` struct. -/
structure Config where
  Port : String
  DSN : String
deriving DecidableEq, Repr

/-! ## Pure helpers -/

/-- The function `loadConfig` (lines 83-98), reading the environment `env`. -/
def loadConfig (env : Env) : Config :=
  let port := Getenv env "APP_PORT"
  let port := if TrimSpace port = "" then "8080" else port
  let dsn := Getenv env "DB_DSN"
  let dsn := if TrimSpace dsn = "" then "root:@tcp(127.0.0.1:3306)/item?parseTime=true" else dsn
  { Port := port, DSN := dsn }

/-- The function `validateProduct` (lines 141-152); `none` is the nil error. -/
def validateProduct (p : Product) : Option String :=
  if TrimSpace p.Name = "" then some "nama produk wajib diisi"
  else if p.Price.lt Float64.zero then some "harga tidak boleh bernilai negatif"
  else if p.Stock < 0 then some "stok tidak boleh bernilai negatif"
  else none

/-! ## JSON, HTTP and store values -/

/-- A JSON scalar as written by `encoding/json` for the field types of `Product`. -/
inductive JSON where
  | int (i : Int)
  | num (f : Float64)
  | str (s : String)
deriving DecidableEq, Repr

/-- What a handler wrote to its `http.ResponseWriter`. -/
inductive Body where
  /-- Plain text written by `http.Error`. -/
  | text (msg : String)
  /-- A JSON object written by `json.NewEncoder(w).Encode`, as its fields in order. -/
  | json (fields : List (String × JSON))
  /-- Nothing written after the header. -/
  | empty
deriving DecidableEq, Repr

/-- Status code and body of a response. -/
structure Response where
  status : Nat
  body : Body
deriving DecidableEq, Repr

/-- The `encoding/json` encoding of a `Product` under its struct tags: `id` carries
`omitempty`, and a NaN or infinite `float64` makes `Encode` fail (`none`). -/
def encodeProduct (p : Product) : Option (List (String × JSON)) :=
  if p.Price.isFinite then
    some ((if p.ID = 0 then [] else [("id", JSON.int p.ID)]) ++
      [("name", JSON.str p.Name), ("price", JSON.num p.Price), ("stock", JSON.int p.Stock)])
  else none

/-- The value of `sql.Result`: what `LastInsertId()` returns, identifier and error. -/
structure SqlResult where
  lastInsertId : Int × Option String
deriving DecidableEq, Repr

/-- The external store handle `*sql.DB`: the answer of `ExecContext` to a statement
and its three arguments. -/
structure DB where
  execContext : String → String → Float64 → Int → Except String SqlResult

/-- An inbound request as the handler sees it: the method and what
`json.NewDecoder(r.Body).Decode(&req)` yields (`none` when decoding fails). -/
structure Request where
  method : String
  decoded : Option Product

/-- The method `App.insertProduct` (lines 154-161): identifier and error. -/
def insertProduct (db : DB) (p : Product) : Int × Option String :=
  match db.execContext "INSERT INTO products (name, price, stock) VALUES (?, ?, ?)"
      p.Name p.Price p.Stock with
  | .error err => (0, some err)
  | .ok result => result.lastInsertId

/-! ## Observable events -/

/-- One observable effect of the running program, in the order it happens. -/
inductive Event where
  /-- `ExecContext` was invoked with the fields of `p`. -/
  | storeCall (p : Product)
  /-- Log line "gagal menyimpan produk". -/
  | logStoreFail (err : String)
  /-- `req.ID = insertedID` was executed: `p` is the identified entity. -/
  | created (p : Product)
  /-- Log line "gagal menulis respons". -/
  | logEncodeFail
  /-- The handler wrote this response. -/
  | respond (r : Response)
  /-- The select took `case a.notificationCh <- req`. -/
  | sent (p : Product)
  /-- The select took `default` and started the goroutine that sends `p`. -/
  | spawned (p : Product)
  /-- The select ran on a closed channel: the handler goroutine panics
  (the HTTP server recovers the panic of a handler). -/
  | handlerPanic (p : Product)
  /-- A deferred goroutine completed `a.notificationCh <- p`. -/
  | deferredSent (p : Product)
  /-- A deferred goroutine ran its send on a closed channel: unrecovered panic. -/
  | fatalPanic (p : Product)
  /-- The worker received `p` and logged "Memicu notifikasi stok". -/
  | notifyStart (p : Product)
  /-- The worker logged "selesai diproses" for `p`. -/
  | notifyDone (p : Product)
  /-- The range loop of the worker ended. -/
  | workerStop
  /-- `<-stop` returned. -/
  | signalReceived
  /-- Log line "memulai proses shutdown...". -/
  | logShutdownStart
  /-- `server.Shutdown(ctx)` returned with this error. -/
  | shutdownReturned (err : Option String)
  /-- Log line "gagal shutdown server". -/
  | logShutdownFail (err : String)
  /-- `close(app.notificationCh)` was executed. -/
  | queueClosed
  /-- `close` ran on a closed channel: panic in the main goroutine. -/
  | closePanic
  /-- The function `main` returned: the process ends. -/
  | mainReturned
deriving DecidableEq, Repr

/-! ## The channel -/

/-- A buffered `chan Product`: queued elements (head is the oldest), capacity and
closed flag. -/
structure Chan where
  buf : List Product
  cap : Nat
  closed : Bool
deriving DecidableEq, Repr

/-- The expression `make(chan Product, n)`. -/
def Chan.make (n : Nat) : Chan := { buf := [], cap := n, closed := false }

/-- Result of attempting a send. -/
inductive SendResult where
  /-- The element was placed in the buffer. -/
  | ok (ch : Chan)
  /-- The buffer is full: a blocking send waits, a select falls to `default`. -/
  | full
  /-- The channel is closed: "send on closed channel". -/
  | panic
deriving DecidableEq, Repr

/-- A send `ch <- p` at the moment it is attempted. -/
def Chan.send (ch : Chan) (p : Product) : SendResult :=
  if ch.closed then .panic
  else if ch.buf.length < ch.cap then .ok { ch with buf := ch.buf ++ [p] }
  else .full

/-- Result of one receive of a `range` loop. -/
inductive RecvResult where
  | value (p : Product) (ch : Chan)
  /-- Closed and empty: the loop ends. -/
  | done
  /-- Open and empty: the receiver waits. -/
  | wait
deriving DecidableEq, Repr

/-- One receive of `for product := range ch`. -/
def Chan.recv (ch : Chan) : RecvResult :=
  match ch.buf with
  | p :: rest => .value p { ch with buf := rest }
  | [] => if ch.closed then .done else .wait

/-! ## The request handler (lines 101-139) -/

/-- The handler `handleCreateProduct` from its entry to just before the `select`:
the events it produced and, when it got that far, the value `req` it is about to
offer to the channel. -/
def handleUntilSelect (db : DB) (r : Request) : List Event × Option Product :=
  if r.method ≠ "POST" then
    ([.respond ⟨405, .text "method not allowed"⟩], none)
  else
    match r.decoded with
    | none => ([.respond ⟨400, .text "payload tidak valid"⟩], none)
    | some req =>
      match validateProduct req with
      | some err => ([.respond ⟨400, .text err⟩], none)
      | none =>
        match insertProduct db req with
        | (_, some err) =>
          ([.storeCall req, .logStoreFail err,
            .respond ⟨500, .text "gagal menyimpan produk"⟩], none)
        | (insertedID, none) =>
          let req1 : Product := { req with ID := insertedID }
          match encodeProduct req1 with
          | some fields =>
            ([.storeCall req, .created req1, .respond ⟨201, .json fields⟩], some req1)
          | none =>
            ([.storeCall req, .created req1, .respond ⟨201, .empty⟩, .logEncodeFail],
              some req1)

/-- Effect of the `select` of lines 133-138 on the channel: the events, the channel
afterwards and the goroutines started. -/
def selectSend (ch : Chan) (req : Product) : List Event × Chan × List Product :=
  match ch.send req with
  | .ok ch1 => ([.sent req], ch1, [])
  | .full => ([.spawned req], ch, [req])
  | .panic => ([.handlerPanic req], ch, [])

/-- The application value `App` (lines 28-32). -/
structure App where
  db : DB
  notificationCh : Chan

/-- The handler `App.handleCreateProduct` run in one piece: its events, the channel
afterwards and the deferred senders it started. -/
def handleCreateProduct (a : App) (r : Request) : List Event × Chan × List Product :=
  match handleUntilSelect a.db r with
  | (evs, none) => (evs, a.notificationCh, [])
  | (evs, some req) =>
    match selectSend a.notificationCh req with
    | (evs1, ch1, spawned) => (evs ++ evs1, ch1, spawned)

/-! ## The goroutines as a transition system -/

/-- Where `backgroundNotifier` (lines 163-169) stands. -/
inductive Worker where
  /-- At the head of the range loop. -/
  | idle
  /-- In the loop body for `p`, between the two log lines. -/
  | busy (p : Product)
  /-- The loop has ended. -/
  | stopped
deriving DecidableEq, Repr

/-- Where the main goroutine stands in `waitForShutdown` (lines 180-194). -/
inductive Coord where
  /-- Blocked in `<-stop`. -/
  | awaitingSignal
  /-- Inside `server.Shutdown(ctx)`. -/
  | stopping
  /-- `Shutdown` has returned; `close(app.notificationCh)` is next. -/
  | closing
  /-- The function `waitForShutdown` has returned to `main`. -/
  | returned
deriving DecidableEq, Repr

/-- Whether the process is alive. -/
inductive Proc where
  | running
  /-- The function `main` returned. -/
  | exited
  /-- An unrecovered panic ended the process. -/
  | crashed
deriving DecidableEq, Repr

/-- The state shared by all goroutines. -/
structure Sys where
  ch : Chan
  /-- Handlers that have written their 201 response and stand before the `select`. -/
  inflight : List Product
  /-- Goroutines started by the `default` branch, standing before their send. -/
  pending : List Product
  worker : Worker
  coord : Coord
  proc : Proc
  /-- Everything observable that has happened so far, oldest first. -/
  trace : List Event
deriving DecidableEq, Repr

/-- One scheduling decision. -/
inductive Action where
  /-- A request runs `handleCreateProduct` up to the `select`, the store answering as `db`. -/
  | request (db : DB) (r : Request)
  /-- The handler at position `i` of `inflight` executes its `select`. -/
  | select (i : Nat)
  /-- The deferred goroutine at position `j` of `pending` executes its send. -/
  | deferred (j : Nat)
  /-- The worker executes the receive of its range loop. -/
  | workerRecv
  /-- The worker finishes the loop body. -/
  | workerDone
  /-- A termination signal arrives at `stop`. -/
  | signal
  /-- The call `server.Shutdown(ctx)` returns with `err`. -/
  | shutdownReturn (err : Option String)
  /-- The main goroutine executes `close(app.notificationCh)`. -/
  | closeQueue
  /-- The function `main` returns. -/
  | mainReturn

/-- The state `main` sets up (lines 47-53): an empty channel of capacity 100, the
worker started, the main goroutine about to wait for a signal. -/
def main : Sys :=
  { ch := Chan.make 100, inflight := [], pending := [], worker := .idle,
    coord := .awaitingSignal, proc := .running, trace := [] }

/-- One step of `backgroundNotifier`: the receive at the loop head (`recv = true`)
or the end of the loop body; `none` when that step cannot be taken now. -/
def backgroundNotifier (recv : Bool) (w : Worker) (ch : Chan) :
    Option (Worker × Chan × List Event) :=
  match recv, w with
  | true, .idle =>
    match ch.recv with
    | .value p ch1 => some (.busy p, ch1, [.notifyStart p])
    | .done => some (.stopped, ch, [.workerStop])
    | .wait => none
  | false, .busy p => some (.idle, ch, [.notifyDone p])
  | _, _ => none

/-- The three statements of `waitForShutdown` that an observer can tell apart. -/
inductive ShutdownStep where
  | signal
  | shutdownReturn (err : Option String)
  | closeQueue

/-- One step of `waitForShutdown`; `none` when that step is not the next statement.
A panic of `close` is reported by the flag. -/
def waitForShutdown (st : ShutdownStep) (c : Coord) (ch : Chan) :
    Option (Coord × Chan × List Event × Bool) :=
  match st, c with
  | .signal, .awaitingSignal =>
    some (.stopping, ch, [.signalReceived, .logShutdownStart], false)
  | .shutdownReturn err, .stopping =>
    match err with
    | some e => some (.closing, ch, [.shutdownReturned (some e), .logShutdownFail e], false)
    | none => some (.closing, ch, [.shutdownReturned none], false)
  | .closeQueue, .closing =>
    if ch.closed then some (.closing, ch, [.closePanic], true)
    else some (.returned, { ch with closed := true }, [.queueClosed], false)
  | _, _ => none

/-- The transition function: the state after `a`, or `none` when `a` cannot happen
in `s` (the goroutine is blocked, absent, or the process has ended). -/
def step (a : Action) (s : Sys) : Option Sys :=
  if s.proc ≠ .running then none
  else
    match a with
    | .request db r =>
      match handleUntilSelect db r with
      | (evs, none) => some { s with trace := s.trace ++ evs }
      | (evs, some req) =>
        some { s with inflight := s.inflight ++ [req], trace := s.trace ++ evs }
    | .select i =>
      match s.inflight[i]? with
      | none => none
      | some req =>
        match selectSend s.ch req with
        | (evs, ch1, spawned) =>
          some { s with ch := ch1, inflight := s.inflight.eraseIdx i,
                        pending := s.pending ++ spawned, trace := s.trace ++ evs }
    | .deferred j =>
      match s.pending[j]? with
      | none => none
      | some p =>
        match s.ch.send p with
        | .ok ch1 =>
          some { s with ch := ch1, pending := s.pending.eraseIdx j,
                        trace := s.trace ++ [.deferredSent p] }
        | .full => none
        | .panic =>
          some { s with pending := s.pending.eraseIdx j, proc := .crashed,
                        trace := s.trace ++ [.fatalPanic p] }
    | .workerRecv =>
      match backgroundNotifier true s.worker s.ch with
      | some (w, ch1, evs) => some { s with worker := w, ch := ch1, trace := s.trace ++ evs }
      | none => none
    | .workerDone =>
      match backgroundNotifier false s.worker s.ch with
      | some (w, ch1, evs) => some { s with worker := w, ch := ch1, trace := s.trace ++ evs }
      | none => none
    | .signal =>
      match waitForShutdown .signal s.coord s.ch with
      | some (c, ch1, evs, crash) =>
        some { s with coord := c, ch := ch1, trace := s.trace ++ evs,
                      proc := if crash then .crashed else .running }
      | none => none
    | .shutdownReturn err =>
      match waitForShutdown (.shutdownReturn err) s.coord s.ch with
      | some (c, ch1, evs, crash) =>
        some { s with coord := c, ch := ch1, trace := s.trace ++ evs,
                      proc := if crash then .crashed else .running }
      | none => none
    | .closeQueue =>
      match waitForShutdown .closeQueue s.coord s.ch with
      | some (c, ch1, evs, crash) =>
        some { s with coord := c, ch := ch1, trace := s.trace ++ evs,
                      proc := if crash then .crashed else .running }
      | none => none
    | .mainReturn =>
      match s.coord with
      | .returned => some { s with proc := .exited, trace := s.trace ++ [.mainReturned] }
      | _ => none

/-- The state after a schedule, `none` as soon as one of its actions cannot happen. -/
def run : List Action → Sys → Option Sys
  | [], s => some s
  | a :: rest, s =>
    match step a s with
    | some s1 => run rest s1
    | none => none

/-! ## Reading a trace -/

/-- The identified entity of a `created` event. -/
def Event.created? : Event → Option Product
  | .created p => some p
  | _ => none

/-- The element a handler placed directly through its `select`. -/
def Event.sent? : Event → Option Product
  | .sent p => some p
  | _ => none

/-- The element a handler handed to a deferred goroutine. -/
def Event.spawned? : Event → Option Product
  | .spawned p => some p
  | _ => none

/-- The element that entered the channel buffer, by either path. -/
def Event.enqueued? : Event → Option Product
  | .sent p => some p
  | .deferredSent p => some p
  | _ => none

/-- The element the worker took out of the channel. -/
def Event.consumed? : Event → Option Product
  | .notifyStart p => some p
  | _ => none

/-- The element the worker finished processing. -/
def Event.completed? : Event → Option Product
  | .notifyDone p => some p
  | _ => none

/-- The element lost to a send on the closed channel. -/
def Event.dropped? : Event → Option Product
  | .handlerPanic p => some p
  | .fatalPanic p => some p
  | _ => none

/-- The element a handler offered to the channel in its `select`, whatever the branch. -/
def Event.selected? : Event → Option Product
  | .sent p => some p
  | .spawned p => some p
  | .handlerPanic p => some p
  | _ => none

/-- The response of a `respond` event. -/
def Event.response? : Event → Option Response
  | .respond r => some r
  | _ => none

/-- The arguments of a store call. -/
def Event.storeCall? : Event → Option Product
  | .storeCall p => some p
  | _ => none

/-- Entities in the order their inserts completed. -/
def createdOf (t : List Event) : List Product := t.filterMap Event.created?

/-- Elements in the order the handlers placed them directly. -/
def sentOf (t : List Event) : List Product := t.filterMap Event.sent?

/-- Elements in the order they were handed to deferred goroutines. -/
def spawnedOf (t : List Event) : List Product := t.filterMap Event.spawned?

/-- Elements in the order they entered the channel buffer. -/
def enqueuedOf (t : List Event) : List Product := t.filterMap Event.enqueued?

/-- Elements in the order the worker dequeued them. -/
def consumedOf (t : List Event) : List Product := t.filterMap Event.consumed?

/-- Elements in the order the worker finished them. -/
def completedOf (t : List Event) : List Product := t.filterMap Event.completed?

/-- Elements lost to a send on the closed channel. -/
def droppedOf (t : List Event) : List Product := t.filterMap Event.dropped?

/-- Elements in the order the handlers executed their `select`. -/
def selectedOf (t : List Event) : List Product := t.filterMap Event.selected?

/-- Responses in the order they were written. -/
def responsesOf (t : List Event) : List Response := t.filterMap Event.response?

/-- Store calls in the order they were made. -/
def storeCallsOf (t : List Event) : List Product := t.filterMap Event.storeCall?

/-- Number of times `close(app.notificationCh)` was executed. -/
def closesOf (t : List Event) : Nat := t.count Event.queueClosed

/-- Producer-side actions: a handler or a deferred sender moves; the worker and the
main goroutine do not. -/
def Action.isProducer : Action → Bool
  | .request _ _ => true
  | .select _ => true
  | .deferred _ => true
  | _ => false

/-- Whether the action is a handler executing its `select` out of arrival order. -/
def Action.overtakes : Action → Bool
  | .select i => i != 0
  | _ => false

/-- Whether the event shows a `select` that did not take the direct send. -/
def Event.offDirect : Event → Bool
  | .spawned _ => true
  | .handlerPanic _ => true
  | _ => false

/-! ## Concrete inputs -/

/-- A store whose insert succeeds with identifier `id`. -/
def dbOk (id : Int) : DB := ⟨fun _ _ _ _ => .ok ⟨(id, none)⟩⟩

/-- A store whose `ExecContext` fails. -/
def dbFail : DB := ⟨fun _ _ _ _ => .error "connection refused"⟩

/-- The `float64` value 250000. -/
def f250000 : Float64 := ⟨false, 1040, 4086334964629504⟩

/-- The `float64` value 10. -/
def f10 : Float64 := ⟨false, 1026, 1125899906842624⟩

/-- The `float64` value -1. -/
def fNeg1 : Float64 := ⟨true, 1023, 0⟩

/-- The decoded payload `{"name":"Mouse","price":250000,"stock":15}`. -/
def mouse : Product := { ID := 0, Name := "Mouse", Price := f250000, Stock := 15 }

/-- The decoded payload `{"name":"Keyboard","price":10,"stock":1}`. -/
def keyboard : Product := { ID := 0, Name := "Keyboard", Price := f10, Stock := 1 }

/-- A POST request with decoded payload `p`. -/
def post (p : Product) : Request := { method := "POST", decoded := some p }

/-- Two overlapping requests: the inserts complete for the mouse and then the keyboard,
the keyboard handler reaches its `select` first, then the worker dequeues both. -/
def overtakingSchedule : List Action :=
  [.request (dbOk 1) (post mouse), .request (dbOk 2) (post keyboard),
   .select 1, .select 0, .workerRecv, .workerDone, .workerRecv]

/-- The schedule of `n` creations handled one after the other, identifiers `1..n`
counted down from `n`. -/
def creations : Nat → List Action
  | 0 => []
  | n + 1 => creations n ++ [.request (dbOk (n + 1)) (post mouse), .select 0]

/-- Three creations handled one after the other, then the worker dequeues two. -/
def sequentialSchedule : List Action :=
  creations 3 ++ [.workerRecv, .workerDone, .workerRecv]

/-- The state reached by `sequentialSchedule`. -/
def sequentialState : Sys := (run sequentialSchedule main).getD main

/-- A burst of `n` overlapping creations: all inserts complete (identifiers `1..n`),
then the handlers execute their selects. -/
def burst (n : Nat) : List Action :=
  (List.range n).map (fun i => Action.request (dbOk (i + 1)) (post mouse)) ++
    List.replicate n (Action.select 0)

/-- The state reached by a burst of 101 creations. -/
def overflowState : Sys := (run (burst 101) main).getD main

/-- A signal, a timed-out shutdown and the close, with nothing else going on. -/
def shutdownSchedule : List Action :=
  [.signal, .shutdownReturn (some "context deadline exceeded"), .closeQueue]

/-- The state reached by `shutdownSchedule`. -/
def shutdownState : Sys := (run shutdownSchedule main).getD main

/-- A full queue, one deferred sender, then shutdown and the deferred send. -/
def closeWhilePending : List Action :=
  creations 101 ++ [.signal, .shutdownReturn none, .closeQueue, .deferred 0]

/-- A handler still before its `select` when a timed-out shutdown closes the queue. -/
def closeWhileInflight : List Action :=
  [.request (dbOk 1) (post mouse), .signal,
   .shutdownReturn (some "context deadline exceeded"), .closeQueue, .select 0]

/-- One event enqueued, then the signal, shutdown, close and return of `main`. -/
def exitWithQueued : List Action :=
  [.request (dbOk 1) (post mouse), .select 0, .signal, .shutdownReturn none,
   .closeQueue, .mainReturn]

/-! ## Invariants of the reachable states -/

/-- Is the response a 201. -/
def Response.isCreated (r : Response) : Bool := r.status == 201

/-- What holds of the shutdown sequence in every reachable state. -/
def ShutdownInv (s : Sys) : Prop :=
  closesOf s.trace = (if s.coord = .returned then 1 else 0) ∧
  (s.ch.closed = true ↔ s.coord = .returned) ∧
  (s.coord ≠ .returned → s.proc = .running) ∧
  (s.coord ≠ .awaitingSignal → Event.signalReceived ∈ s.trace) ∧
  (s.coord = .closing ∨ s.coord = .returned → ∃ err, Event.shutdownReturned err ∈ s.trace) ∧
  (∀ pre post, s.trace = pre ++ Event.queueClosed :: post →
      Event.signalReceived ∈ pre ∧ ∃ err, Event.shutdownReturned err ∈ pre) ∧
  Event.closePanic ∉ s.trace

/-- What holds of the queue and its events in every reachable state. -/
def QueueInv (s : Sys) : Prop :=
  s.ch.cap = 100 ∧
  s.ch.buf.length ≤ 100 ∧
  consumedOf s.trace ++ s.ch.buf = enqueuedOf s.trace ∧
  (∀ p, (createdOf s.trace).count p =
      s.inflight.count p + s.ch.buf.count p + s.pending.count p +
        (consumedOf s.trace).count p + (droppedOf s.trace).count p) ∧
  ((responsesOf s.trace).countP Response.isCreated = (createdOf s.trace).length) ∧
  (s.ch.closed = false → droppedOf s.trace = [])

/-- What holds while only handlers and deferred senders have moved. -/
def ProducerInv (s : Sys) : Prop :=
  s.coord = .awaitingSignal ∧ s.worker = .idle ∧ s.ch.closed = false ∧ s.proc = .running ∧
  consumedOf s.trace = [] ∧ s.ch.buf = sentOf s.trace ∧ s.pending = spawnedOf s.trace ∧
  (s.pending ≠ [] → s.ch.buf.length = 100)

/-- Handler steps are never blocked in `s`: any request runs up to its `select`, and
the `select` of every handler standing before it executes at once and ends that
handler without a panic, its event going to the tail of the queue when there is room
and to a new deferred sender when there is none. -/
def NeverBlocks (s : Sys) : Prop :=
  (∀ (db : DB) (r : Request), ∃ s1, step (.request db r) s = some s1 ∧ s1.proc = .running) ∧
  ∀ (i : Nat) (hi : i < s.inflight.length), ∃ s1,
    step (.select i) s = some s1 ∧ s1.inflight = s.inflight.eraseIdx i ∧
    s1.proc = .running ∧ s1.ch.closed = false ∧
    ((s.ch.buf.length < s.ch.cap ∧ s1.ch.buf = s.ch.buf ++ [s.inflight.get ⟨i, hi⟩] ∧
        s1.pending = s.pending) ∨
     (s.ch.cap ≤ s.ch.buf.length ∧ s1.ch.buf = s.ch.buf ∧
        s1.pending = s.pending ++ [s.inflight.get ⟨i, hi⟩]))

/-- The state after `100 + k` creations have been handled to completion with nobody
dequeuing: `100 + k` responses with status 201, the process running, the queue holding
exactly the 100 events sent directly, the other `k` events held one each by the
deferred senders, which cannot proceed while the queue is full and each of which can
place its event at the tail once the worker has received one. -/
def Overflowed (k : Nat) (s : Sys) : Prop :=
  s.inflight = [] ∧
  (responsesOf s.trace).countP Response.isCreated = 100 + k ∧
  s.proc = .running ∧
  s.ch.buf = sentOf s.trace ∧ s.ch.buf.length = 100 ∧
  s.pending = spawnedOf s.trace ∧ s.pending.length = k ∧
  (createdOf s.trace).Perm (s.ch.buf ++ s.pending) ∧
  (∀ j, step (.deferred j) s = none) ∧
  (∃ s1, step .workerRecv s = some s1 ∧
    ∀ (j : Nat) (hj : j < s.pending.length), ∃ s2,
      step (.deferred j) s1 = some s2 ∧
      s2.ch.buf = s1.ch.buf ++ [s.pending.get ⟨j, hj⟩] ∧
      s2.pending = s.pending.eraseIdx j ∧ s2.proc = .running)

/-- Actions of the main goroutine that close the queue. -/
def Action.closes : Action → Bool
  | .closeQueue => true
  | _ => false

/-! ## What one step does -/

/-- Only a running process takes steps. -/
theorem step_running {a : Action} {s s1 : Sys} (h : step a s = some s1) : s.proc = .running := by
  unfold step at h
  by_contra hp
  simp [hp] at h

/-- What a request step does to the state. -/
theorem step_request {db : DB} {r : Request} {s s1 : Sys}
    (h : step (.request db r) s = some s1) :
    s1 = { s with inflight := s.inflight ++ (handleUntilSelect db r).2.toList,
                  trace := s.trace ++ (handleUntilSelect db r).1 } := by
  have hp := step_running h
  unfold step at h
  rw [if_neg (by simp [hp])] at h
  rcases hh : handleUntilSelect db r with ⟨evs, _ | req⟩ <;> simp [hh] at h ⊢ <;> (subst h; rfl)

/-- The three outcomes of a handler's select: direct send, goroutine started, panic. -/
theorem step_select {i : Nat} {s s1 : Sys} (h : step (.select i) s = some s1) :
    ∃ req, s.inflight[i]? = some req ∧
      ((s.ch.closed = false ∧ s.ch.buf.length < s.ch.cap ∧
          s1 = { s with ch := { s.ch with buf := s.ch.buf ++ [req] },
                        inflight := s.inflight.eraseIdx i,
                        trace := s.trace ++ [.sent req] }) ∨
       (s.ch.closed = false ∧ s.ch.cap ≤ s.ch.buf.length ∧
          s1 = { s with inflight := s.inflight.eraseIdx i, pending := s.pending ++ [req],
                        trace := s.trace ++ [.spawned req] }) ∨
       (s.ch.closed = true ∧
          s1 = { s with inflight := s.inflight.eraseIdx i,
                        trace := s.trace ++ [.handlerPanic req] })) := by
  have hp := step_running h
  unfold step at h
  rw [if_neg (by simp [hp])] at h
  cases hg : s.inflight[i]? with
  | none => simp [hg] at h
  | some req =>
    refine ⟨req, rfl, ?_⟩
    simp only [hg, selectSend, Chan.send] at h
    by_cases hc : s.ch.closed = true
    · simp [hc] at h
      exact Or.inr (Or.inr ⟨hc, by subst h; rfl⟩)
    · simp only [Bool.not_eq_true] at hc
      by_cases hl : s.ch.buf.length < s.ch.cap
      · simp [hc, hl] at h
        exact Or.inl ⟨hc, hl, by subst h; simp [*]⟩
      · simp [hc, hl] at h
        exact Or.inr (Or.inl ⟨hc, Nat.le_of_not_lt hl, by subst h; rfl⟩)

/-- The two outcomes of a deferred send that is not blocked: placed, or panic. -/
theorem step_deferred {j : Nat} {s s1 : Sys} (h : step (.deferred j) s = some s1) :
    ∃ p, s.pending[j]? = some p ∧
      ((s.ch.closed = false ∧ s.ch.buf.length < s.ch.cap ∧
          s1 = { s with ch := { s.ch with buf := s.ch.buf ++ [p] },
                        pending := s.pending.eraseIdx j,
                        trace := s.trace ++ [.deferredSent p] }) ∨
       (s.ch.closed = true ∧
          s1 = { s with pending := s.pending.eraseIdx j, proc := .crashed,
                        trace := s.trace ++ [.fatalPanic p] })) := by
  have hp := step_running h
  unfold step at h
  rw [if_neg (by simp [hp])] at h
  cases hg : s.pending[j]? with
  | none => simp [hg] at h
  | some p =>
    refine ⟨p, rfl, ?_⟩
    simp only [hg, Chan.send] at h
    by_cases hc : s.ch.closed = true
    · simp [hc] at h
      exact Or.inr ⟨hc, by subst h; rfl⟩
    · simp only [Bool.not_eq_true] at hc
      by_cases hl : s.ch.buf.length < s.ch.cap
      · simp [hc, hl] at h
        exact Or.inl ⟨hc, hl, by subst h; simp [*]⟩
      · simp [hc, hl] at h

/-- The two outcomes of a receive of the worker that is not blocked. -/
theorem step_workerRecv {s s1 : Sys} (h : step .workerRecv s = some s1) :
    s.worker = .idle ∧
      ((∃ p rest, s.ch.buf = p :: rest ∧
          s1 = { s with worker := .busy p, ch := { s.ch with buf := rest },
                        trace := s.trace ++ [.notifyStart p] }) ∨
       (s.ch.buf = [] ∧ s.ch.closed = true ∧
          s1 = { s with worker := .stopped, trace := s.trace ++ [.workerStop] })) := by
  have hp := step_running h
  unfold step at h
  rw [if_neg (by simp [hp])] at h
  cases hw : s.worker with
  | idle =>
    refine ⟨rfl, ?_⟩
    simp only [hw, backgroundNotifier, Chan.recv] at h
    cases hb : s.ch.buf with
    | nil =>
      by_cases hc : s.ch.closed = true
      · simp [hb, hc] at h
        exact Or.inr ⟨rfl, hc, by subst h; rfl⟩
      · simp [hb, hc] at h
    | cons p rest =>
      simp [hb] at h
      exact Or.inl ⟨p, rest, rfl, by subst h; rfl⟩
  | busy p => simp [hw, backgroundNotifier] at h
  | stopped => simp [hw, backgroundNotifier] at h

/-- The worker ending its loop body. -/
theorem step_workerDone {s s1 : Sys} (h : step .workerDone s = some s1) :
    ∃ p, s.worker = .busy p ∧
      s1 = { s with worker := .idle, trace := s.trace ++ [.notifyDone p] } := by
  have hp := step_running h
  unfold step at h
  rw [if_neg (by simp [hp])] at h
  cases hw : s.worker with
  | idle => simp [hw, backgroundNotifier] at h
  | busy p =>
    simp [hw, backgroundNotifier] at h
    exact ⟨p, rfl, by subst h; rfl⟩
  | stopped => simp [hw, backgroundNotifier] at h

/-- The main goroutine receiving the signal. -/
theorem step_signal {s s1 : Sys} (h : step .signal s = some s1) :
    s.coord = .awaitingSignal ∧
      s1 = { s with coord := .stopping,
                    trace := s.trace ++ [.signalReceived, .logShutdownStart] } := by
  have hp := step_running h
  unfold step at h
  rw [if_neg (by simp [hp])] at h
  cases hc : s.coord <;> simp [hc, waitForShutdown] at h
  exact ⟨rfl, by subst h; simp [*]⟩

/-- The return of the graceful stop, logged when it is an error. -/
theorem step_shutdownReturn {err : Option String} {s s1 : Sys}
    (h : step (.shutdownReturn err) s = some s1) :
    s.coord = .stopping ∧
      s1 = { s with coord := .closing,
                    trace := s.trace ++ (.shutdownReturned err ::
                      (match err with
                       | some e => [.logShutdownFail e]
                       | none => [])) } := by
  have hp := step_running h
  unfold step at h
  rw [if_neg (by simp [hp])] at h
  cases hc : s.coord <;> simp [hc, waitForShutdown] at h
  cases err with
  | none =>
    simp at h
    exact ⟨rfl, by subst h; simp [*]⟩
  | some e =>
    simp at h
    exact ⟨rfl, by subst h; simp [*]⟩

/-- The close of the channel, a panic when it is closed already. -/
theorem step_closeQueue {s s1 : Sys} (h : step .closeQueue s = some s1) :
    s.coord = .closing ∧
      ((s.ch.closed = false ∧
          s1 = { s with coord := .returned, ch := { s.ch with closed := true },
                        trace := s.trace ++ [.queueClosed] }) ∨
       (s.ch.closed = true ∧
          s1 = { s with proc := .crashed, trace := s.trace ++ [.closePanic] })) := by
  have hp := step_running h
  unfold step at h
  rw [if_neg (by simp [hp])] at h
  cases hc : s.coord <;> simp [hc, waitForShutdown] at h
  refine ⟨rfl, ?_⟩
  by_cases hcl : s.ch.closed = true
  · simp [hcl] at h
    exact Or.inr ⟨hcl, by subst h; rfl⟩
  · simp [hcl] at h
    simp only [Bool.not_eq_true] at hcl
    exact Or.inl ⟨hcl, by subst h; simp [*]⟩

/-- The return of the main function. -/
theorem step_mainReturn {s s1 : Sys} (h : step .mainReturn s = some s1) :
    s.coord = .returned ∧
      s1 = { s with proc := .exited, trace := s.trace ++ [.mainReturned] } := by
  have hp := step_running h
  unfold step at h
  rw [if_neg (by simp [hp])] at h
  cases hc : s.coord <;> simp [hc] at h
  exact ⟨rfl, by subst h; rfl⟩

/-! ## Runs and the handler's shapes -/

/-- A property kept by every permitted step holds after every run of permitted steps. -/
theorem run_invariant (P : Sys → Prop) (Q : Action → Prop)
    (hstep : ∀ a s s1, Q a → P s → step a s = some s1 → P s1) :
    ∀ (acts : List Action) (s s1 : Sys), (∀ a ∈ acts, Q a) → P s → run acts s = some s1 → P s1 := by
  intro acts
  induction acts with
  | nil =>
    intro s s1 _ hP h
    simp only [run, Option.some.injEq] at h
    exact h ▸ hP
  | cons a rest ih =>
    intro s s1 hQ hP h
    simp only [run] at h
    cases hs : step a s with
    | none => simp [hs] at h
    | some s2 =>
      simp only [hs] at h
      exact ih s2 s1 (fun b hb => hQ b (List.mem_cons_of_mem _ hb))
        (hstep a s s2 (hQ a (List.mem_cons_self _ _)) hP hs) h

/-- Running a concatenation is running the parts in turn. -/
theorem run_append (xs ys : List Action) (s : Sys) :
    run (xs ++ ys) s = (run xs s).bind (run ys) := by
  induction xs generalizing s with
  | nil => simp [run]
  | cons a rest ih =>
    simp only [List.cons_append, run]
    cases step a s with
    | none => simp
    | some s2 => simpa using ih s2

/-- Every point of a run is reached by the schedule cut there. -/
theorem run_take {acts : List Action} {s s1 : Sys} (h : run acts s = some s1) (n : Nat) :
    ∃ sn, run (acts.take n) s = some sn ∧ run (acts.drop n) sn = some s1 := by
  have h2 : run (acts.take n ++ acts.drop n) s = some s1 := by rw [List.take_append_drop]; exact h
  rw [run_append] at h2
  cases hr : run (acts.take n) s with
  | none => simp [hr] at h2
  | some sn => exact ⟨sn, rfl, by simpa [hr] using h2⟩

/-- The four shapes of what a handler produces before its select. -/
theorem handleUntilSelect_cases (db : DB) (r : Request) :
    (∃ resp, handleUntilSelect db r = ([.respond resp], none) ∧ resp.status ≠ 201) ∨
    (∃ req err, handleUntilSelect db r =
        ([.storeCall req, .logStoreFail err, .respond ⟨500, .text "gagal menyimpan produk"⟩],
          none)) ∨
    (∃ req req1 fields, handleUntilSelect db r =
        ([.storeCall req, .created req1, .respond ⟨201, .json fields⟩], some req1)) ∨
    (∃ req req1, handleUntilSelect db r =
        ([.storeCall req, .created req1, .respond ⟨201, .empty⟩, .logEncodeFail], some req1)) := by
  unfold handleUntilSelect
  by_cases hm : r.method ≠ "POST"
  · exact Or.inl ⟨_, by rw [if_pos hm], by decide⟩
  · rw [if_neg hm]
    cases hd : r.decoded with
    | none => exact Or.inl ⟨_, rfl, by decide⟩
    | some req =>
      dsimp only
      cases hv : validateProduct req with
      | some err => exact Or.inl ⟨_, rfl, by simp⟩
      | none =>
        dsimp only
        rcases hi : insertProduct db req with ⟨id, _ | err⟩
        · dsimp only
          cases he : encodeProduct { req with ID := id } with
          | none => exact Or.inr (Or.inr (Or.inr ⟨_, _, rfl⟩))
          | some fields => exact Or.inr (Or.inr (Or.inl ⟨_, _, _, rfl⟩))
        · exact Or.inr (Or.inl ⟨_, _, rfl⟩)

/-! ## The shutdown sequence -/

/-- Removing the element at a position lowers its count by one and no other. -/
theorem count_eraseIdx {l : List Product} {i : Nat} {x : Product} (h : l[i]? = some x)
    (a : Product) : l.count a = (l.eraseIdx i).count a + (if x = a then 1 else 0) := by
  induction l generalizing i with
  | nil => simp at h
  | cons b t ih =>
    cases i with
    | zero =>
      simp at h
      subst h
      simp [List.count_cons]
    | succ n =>
      simp at h
      have := ih h
      simp [List.count_cons, this]
      omega

/-- The initial state satisfies the shutdown invariant. -/
theorem shutdownInv_main : ShutdownInv main := by
  simp [ShutdownInv, main, closesOf, Chan.make]

/-- An occurrence in an extended trace lies in the old part when the new part has none. -/
theorem mem_split_of_append {t evs pre post : List Event} {e : Event}
    (h : t ++ evs = pre ++ e :: post) (he : e ∉ evs) : ∃ post1, t = pre ++ e :: post1 := by
  rw [List.append_eq_append_iff] at h
  rcases h with ⟨as, _, h2⟩ | ⟨bs, h1, h2⟩
  · exact absurd (h2 ▸ (List.mem_append_right _ (List.mem_cons_self _ _))) he
  · cases bs with
    | nil =>
      simp only [List.nil_append] at h2
      exact absurd (h2 ▸ List.mem_cons_self _ _) he
    | cons b bs =>
      simp only [List.cons_append, List.cons.injEq] at h2
      exact ⟨bs, by rw [h1, h2.1]⟩

/-- Steps outside the shutdown sequence keep the shutdown invariant. -/
theorem shutdownInv_extend {s s1 : Sys} (evs : List Event) (h : ShutdownInv s)
    (hc : s1.coord = s.coord) (hcl : s1.ch.closed = s.ch.closed)
    (ht : s1.trace = s.trace ++ evs) (h1 : Event.queueClosed ∉ evs)
    (h2 : Event.closePanic ∉ evs) (hp : s.coord ≠ .returned → s1.proc = .running) :
    ShutdownInv s1 := by
  obtain ⟨k1, k2, k3, k4, k5, k6, k7⟩ := h
  refine ⟨?_, ?_, ?_, ?_, ?_, ?_, ?_⟩
  · rw [ht, hc, closesOf, List.count_append, List.count_eq_zero_of_not_mem h1]
    exact k1
  · rw [hcl, hc]; exact k2
  · rw [hc]; exact hp
  · rw [hc, ht]; exact fun h => List.mem_append_left _ (k4 h)
  · rw [hc, ht]
    intro h
    obtain ⟨err, he⟩ := k5 h
    exact ⟨err, List.mem_append_left _ he⟩
  · intro pre post hs
    rw [ht] at hs
    obtain ⟨post1, hs1⟩ := mem_split_of_append hs h1
    exact k6 pre post1 hs1
  · rw [ht, List.mem_append]
    exact fun h => h.elim k7 h2

/-- Every step keeps the shutdown invariant. -/
theorem shutdownInv_step {a : Action} {s s1 : Sys} (h : ShutdownInv s)
    (hs : step a s = some s1) : ShutdownInv s1 := by
  have hrun := step_running hs
  cases a with
  | request db r =>
    have e := step_request hs
    subst e
    refine shutdownInv_extend (handleUntilSelect db r).1 h rfl rfl rfl ?_ ?_
      (fun _ => hrun)
    all_goals
      rcases handleUntilSelect_cases db r with ⟨_, h, _⟩ | ⟨_, _, h⟩ | ⟨_, _, _, h⟩ | ⟨_, _, h⟩ <;>
        rw [h] <;> simp
  | select i =>
    obtain ⟨req, _, ⟨_, _, e⟩ | ⟨_, _, e⟩ | ⟨_, e⟩⟩ := step_select hs <;> subst e
    · exact shutdownInv_extend [.sent req] h rfl rfl rfl (by simp) (by simp)
        (fun _ => hrun)
    · exact shutdownInv_extend [.spawned req] h rfl rfl rfl (by simp) (by simp)
        (fun _ => hrun)
    · exact shutdownInv_extend [.handlerPanic req] h rfl rfl rfl (by simp) (by simp)
        (fun _ => hrun)
  | deferred j =>
    obtain ⟨p, _, ⟨_, _, e⟩ | ⟨hc, e⟩⟩ := step_deferred hs <;> subst e
    · exact shutdownInv_extend [.deferredSent p] h rfl rfl rfl (by simp) (by simp)
        (fun _ => hrun)
    · exact shutdownInv_extend [.fatalPanic p] h rfl rfl rfl (by simp) (by simp)
        (fun hne => absurd (h.2.1.mp hc) hne)
  | workerRecv =>
    obtain ⟨_, ⟨p, rest, _, e⟩ | ⟨_, _, e⟩⟩ := step_workerRecv hs <;> subst e
    · exact shutdownInv_extend [.notifyStart p] h rfl rfl rfl (by simp) (by simp)
        (fun _ => hrun)
    · exact shutdownInv_extend [.workerStop] h rfl rfl rfl (by simp) (by simp)
        (fun _ => hrun)
  | workerDone =>
    obtain ⟨p, _, e⟩ := step_workerDone hs
    subst e
    exact shutdownInv_extend [.notifyDone p] h rfl rfl rfl (by simp) (by simp)
      (fun _ => hrun)
  | mainReturn =>
    obtain ⟨hc, e⟩ := step_mainReturn hs
    subst e
    exact shutdownInv_extend [.mainReturned] h rfl rfl rfl (by simp) (by simp)
      (fun hne => absurd hc hne)
  | signal =>
    obtain ⟨hc, e⟩ := step_signal hs
    subst e
    obtain ⟨k1, k2, k3, k4, k5, k6, k7⟩ := h
    refine ⟨?_, ?_, ?_, ?_, ?_, ?_, ?_⟩
    · simpa [closesOf, List.count_append, hc] using k1
    · simpa [hc] using k2
    · intro _; exact hrun
    · intro _; simp
    · simp
    · intro pre post hsplit
      obtain ⟨post1, hs1⟩ := mem_split_of_append hsplit (by simp)
      exact k6 pre post1 hs1
    · simpa using k7
  | shutdownReturn err =>
    obtain ⟨hc, e⟩ := step_shutdownReturn hs
    subst e
    obtain ⟨k1, k2, k3, k4, k5, k6, k7⟩ := h
    refine ⟨?_, ?_, ?_, ?_, ?_, ?_, ?_⟩
    · cases err <;> simpa [closesOf, List.count_append, hc] using k1
    · simpa [hc] using k2
    · intro _; exact hrun
    · intro _
      exact List.mem_append_left _ (k4 (by simp [hc]))
    · intro _
      exact ⟨err, by simp⟩
    · intro pre post hsplit
      obtain ⟨post1, hs1⟩ := mem_split_of_append hsplit (by cases err <;> simp)
      exact k6 pre post1 hs1
    · cases err <;> simpa using k7
  | closeQueue =>
    obtain ⟨hc, ⟨hcl, e⟩ | ⟨hcl, e⟩⟩ := step_closeQueue hs
    · subst e
      obtain ⟨k1, k2, k3, k4, k5, k6, k7⟩ := h
      refine ⟨?_, ?_, ?_, ?_, ?_, ?_, ?_⟩
      · simpa [closesOf, List.count_append, hc] using k1
      · simp
      · simp
      · intro _
        exact List.mem_append_left _ (k4 (by simp [hc]))
      · intro _
        obtain ⟨err, he⟩ := k5 (Or.inl hc)
        exact ⟨err, List.mem_append_left _ he⟩
      · intro pre post hsplit
        have hno : Event.queueClosed ∉ s.trace := by
          have : closesOf s.trace = 0 := by simpa [hc] using k1
          exact List.count_eq_zero.mp this
        dsimp only at hsplit
        rw [List.append_eq_append_iff] at hsplit
        have hpre : pre = s.trace := by
          rcases hsplit with ⟨as, h1, h2⟩ | ⟨bs, h1, h2⟩
          · cases as with
            | nil => simpa using h1
            | cons b bs => simp at h2
          · cases bs with
            | nil => simpa using h1.symm
            | cons b bs =>
              simp only [List.cons_append, List.cons.injEq] at h2
              refine absurd ?_ hno
              rw [h1, ← h2.1]
              simp
        subst hpre
        obtain ⟨err, he⟩ := k5 (Or.inl hc)
        exact ⟨k4 (by simp [hc]), err, he⟩
      · simpa using k7
    · exact absurd (h.2.1.mp hcl) (by simp [hc])

/-- Every reachable state satisfies the shutdown invariant. -/
theorem shutdownInv_run {acts : List Action} {s : Sys} (h : run acts main = some s) :
    ShutdownInv s :=
  run_invariant ShutdownInv (fun _ => True) (fun _ _ _ _ hP hs => shutdownInv_step hP hs)
    acts main s (fun _ _ => trivial) shutdownInv_main h

/-! ## The queue and its events -/

/-- The initial state satisfies the queue invariant. -/
theorem queueInv_main : QueueInv main := by
  simp [QueueInv, main, Chan.make, consumedOf, enqueuedOf, createdOf, droppedOf, responsesOf]

/-- Every step keeps the queue invariant. -/
theorem queueInv_step {a : Action} {s s1 : Sys} (h : QueueInv s)
    (hs : step a s = some s1) : QueueInv s1 := by
  obtain ⟨q1, q2, q3, q4, q5, q6⟩ := h
  unfold QueueInv
  simp only [createdOf, consumedOf, enqueuedOf, droppedOf, responsesOf] at q3 q4 q5 q6 ⊢
  cases a with
  | request db r =>
    have e := step_request hs
    subst e
    rcases handleUntilSelect_cases db r with ⟨resp, h, hne⟩ | ⟨_, _, h⟩ | ⟨_, _, _, h⟩ | ⟨_, _, h⟩ <;>
      rw [h] <;>
      simp only [List.filterMap_append, List.filterMap_cons, List.filterMap_nil,
        Event.created?, Event.consumed?, Event.enqueued?, Event.dropped?, Event.response?,
        List.append_nil, Option.toList, List.count_append, List.count_nil, List.countP_append,
        List.countP_cons, List.countP_nil, List.length_append, List.length_cons, List.length_nil,
        Nat.add_zero, Nat.zero_add] <;>
      refine ⟨q1, q2, q3, ?_, ?_, q6⟩
    · exact q4
    · have : Response.isCreated resp = false := by simpa [Response.isCreated] using hne
      simpa [this] using q5
    · exact q4
    · simpa [Response.isCreated] using q5
    · intro p; rw [q4 p]; omega
    · simpa [Response.isCreated] using q5
    · intro p; rw [q4 p]; omega
    · simpa [Response.isCreated] using q5
  | select i =>
    obtain ⟨req, hg, ⟨hc, hl, e⟩ | ⟨hc, hl, e⟩ | ⟨hc, e⟩⟩ := step_select hs <;> subst e <;>
      simp only [List.filterMap_append, List.filterMap_cons, List.filterMap_nil,
        Event.created?, Event.consumed?, Event.enqueued?, Event.dropped?, Event.response?,
        List.append_nil, List.count_append, List.count_nil, List.countP_append,
        List.countP_nil, List.length_append, List.length_cons, List.length_nil,
        Nat.add_zero, Nat.zero_add]
    · refine ⟨q1, by omega, by rw [← q3, List.append_assoc], ?_, q5, q6⟩
      intro p
      rw [q4 p, count_eraseIdx hg p, List.count_cons, List.count_nil]
      simp only [beq_iff_eq]
      omega
    · refine ⟨q1, q2, q3, ?_, q5, q6⟩
      intro p
      rw [q4 p, count_eraseIdx hg p, List.count_cons, List.count_nil]
      simp only [beq_iff_eq]
      omega
    · refine ⟨q1, q2, q3, ?_, q5, fun h => absurd hc (by simp [h])⟩
      intro p
      rw [q4 p, count_eraseIdx hg p, List.count_cons, List.count_nil]
      simp only [beq_iff_eq]
      omega
  | deferred j =>
    obtain ⟨p0, hg, ⟨hc, hl, e⟩ | ⟨hc, e⟩⟩ := step_deferred hs <;> subst e <;>
      simp only [List.filterMap_append, List.filterMap_cons, List.filterMap_nil,
        Event.created?, Event.consumed?, Event.enqueued?, Event.dropped?, Event.response?,
        List.append_nil, List.count_append, List.count_nil, List.countP_append,
        List.countP_nil, List.length_append, List.length_cons, List.length_nil,
        Nat.add_zero, Nat.zero_add]
    · refine ⟨q1, by omega, by rw [← q3, List.append_assoc], ?_, q5, q6⟩
      intro p
      rw [q4 p, count_eraseIdx hg p, List.count_cons, List.count_nil]
      simp only [beq_iff_eq]
      omega
    · refine ⟨q1, q2, q3, ?_, q5, fun h => absurd hc (by simp [h])⟩
      intro p
      rw [q4 p, count_eraseIdx hg p, List.count_cons, List.count_nil]
      simp only [beq_iff_eq]
      omega
  | workerRecv =>
    obtain ⟨_, ⟨p0, rest, hb, e⟩ | ⟨_, _, e⟩⟩ := step_workerRecv hs <;> subst e <;>
      simp only [List.filterMap_append, List.filterMap_cons, List.filterMap_nil,
        Event.created?, Event.consumed?, Event.enqueued?, Event.dropped?, Event.response?,
        List.append_nil, List.count_append, List.count_nil, List.countP_append,
        List.countP_nil, List.length_append, List.length_cons, List.length_nil,
        Nat.add_zero, Nat.zero_add]
    · rw [hb] at q2 q3 q4
      refine ⟨q1, ?_, by rw [← q3]; simp, ?_, q5, q6⟩
      · simp only [List.length_cons] at q2; omega
      · intro p
        rw [q4 p]
        simp only [List.count_cons, List.count_nil, beq_iff_eq]
        omega
    · exact ⟨q1, q2, q3, q4, q5, q6⟩
  | workerDone =>
    obtain ⟨p0, _, e⟩ := step_workerDone hs
    subst e
    simp only [List.filterMap_append, List.filterMap_cons, List.filterMap_nil,
      Event.created?, Event.consumed?, Event.enqueued?, Event.dropped?, Event.response?,
      List.append_nil]
    exact ⟨q1, q2, q3, q4, q5, q6⟩
  | signal =>
    obtain ⟨_, e⟩ := step_signal hs
    subst e
    simp only [List.filterMap_append, List.filterMap_cons, List.filterMap_nil,
      Event.created?, Event.consumed?, Event.enqueued?, Event.dropped?, Event.response?,
      List.append_nil]
    exact ⟨q1, q2, q3, q4, q5, q6⟩
  | shutdownReturn err =>
    obtain ⟨_, e⟩ := step_shutdownReturn hs
    subst e
    cases err <;>
    simp only [List.filterMap_append, List.filterMap_cons, List.filterMap_nil,
      Event.created?, Event.consumed?, Event.enqueued?, Event.dropped?, Event.response?,
      List.append_nil] <;>
    exact ⟨q1, q2, q3, q4, q5, q6⟩
  | closeQueue =>
    obtain ⟨_, ⟨hc, e⟩ | ⟨hc, e⟩⟩ := step_closeQueue hs <;> subst e <;>
    simp only [List.filterMap_append, List.filterMap_cons, List.filterMap_nil,
      Event.created?, Event.consumed?, Event.enqueued?, Event.dropped?, Event.response?,
      List.append_nil]
    · exact ⟨q1, q2, q3, q4, q5, fun h => by simp at h⟩
    · exact ⟨q1, q2, q3, q4, q5, q6⟩
  | mainReturn =>
    obtain ⟨_, e⟩ := step_mainReturn hs
    subst e
    simp only [List.filterMap_append, List.filterMap_cons, List.filterMap_nil,
      Event.created?, Event.consumed?, Event.enqueued?, Event.dropped?, Event.response?,
      List.append_nil]
    exact ⟨q1, q2, q3, q4, q5, q6⟩

/-- Every reachable state satisfies the queue invariant. -/
theorem queueInv_run {acts : List Action} {s : Sys} (h : run acts main = some s) :
    QueueInv s :=
  run_invariant QueueInv (fun _ => True) (fun _ _ _ _ hP hs => queueInv_step hP hs)
    acts main s (fun _ _ => trivial) queueInv_main h

/-! ## Direct sends and arrival order -/

/-- When every select took the direct send, the selected events are the sent ones. -/
theorem selectedOf_direct (t : List Event) (h : ∀ e ∈ t, e.offDirect = false) :
    selectedOf t = sentOf t ∧ spawnedOf t = [] := by
  induction t with
  | nil => exact ⟨rfl, rfl⟩
  | cons e t ih =>
    have ih1 := ih (fun x hx => h x (List.mem_cons_of_mem _ hx))
    have he := h e (List.mem_cons_self _ _)
    unfold selectedOf sentOf spawnedOf at ih1 ⊢
    cases e <;>
      simp_all [List.filterMap_cons, Event.selected?, Event.sent?, Event.spawned?,
        Event.offDirect]

/-- While no goroutine was started, nothing is pending and all queued events were sent directly. -/
theorem direct_step {a : Action} {s s1 : Sys}
    (h : spawnedOf s.trace = [] → s.pending = [] ∧ enqueuedOf s.trace = sentOf s.trace)
    (hs : step a s = some s1) :
    spawnedOf s1.trace = [] → s1.pending = [] ∧ enqueuedOf s1.trace = sentOf s1.trace := by
  unfold spawnedOf enqueuedOf sentOf at h ⊢
  cases a with
  | request db r =>
    have e := step_request hs
    subst e
    rcases handleUntilSelect_cases db r with ⟨resp, h1, _⟩ | ⟨_, _, h1⟩ | ⟨_, _, _, h1⟩ | ⟨_, _, h1⟩ <;>
      rw [h1] <;>
      simpa only [List.filterMap_append, List.filterMap_cons, List.filterMap_nil,
        Event.spawned?, Event.enqueued?, Event.sent?, List.append_nil] using h
  | select i =>
    obtain ⟨req, hg, ⟨hc, hl, e⟩ | ⟨hc, hl, e⟩ | ⟨hc, e⟩⟩ := step_select hs <;> subst e <;>
      simp only [List.filterMap_append, List.filterMap_cons, List.filterMap_nil,
        Event.spawned?, Event.enqueued?, Event.sent?, List.append_nil]
    · intro h0
      obtain ⟨h1, h2⟩ := h h0
      exact ⟨h1, by rw [h2]⟩
    · intro h0
      simp at h0
    · exact h
  | deferred j =>
    obtain ⟨p0, hg, ⟨hc, hl, e⟩ | ⟨hc, e⟩⟩ := step_deferred hs <;> subst e <;>
      simp only [List.filterMap_append, List.filterMap_cons, List.filterMap_nil,
        Event.spawned?, Event.enqueued?, Event.sent?, List.append_nil] <;>
      intro h0 <;> obtain ⟨h1, h2⟩ := h h0 <;> rw [h1] at hg <;> simp at hg
  | workerRecv =>
    obtain ⟨_, ⟨p0, rest, hb, e⟩ | ⟨_, _, e⟩⟩ := step_workerRecv hs <;> subst e <;>
      simpa only [List.filterMap_append, List.filterMap_cons, List.filterMap_nil,
        Event.spawned?, Event.enqueued?, Event.sent?, List.append_nil] using h
  | workerDone =>
    obtain ⟨p0, _, e⟩ := step_workerDone hs
    subst e
    simpa only [List.filterMap_append, List.filterMap_cons, List.filterMap_nil,
      Event.spawned?, Event.enqueued?, Event.sent?, List.append_nil] using h
  | signal =>
    obtain ⟨_, e⟩ := step_signal hs
    subst e
    simpa only [List.filterMap_append, List.filterMap_cons, List.filterMap_nil,
      Event.spawned?, Event.enqueued?, Event.sent?, List.append_nil] using h
  | shutdownReturn err =>
    obtain ⟨_, e⟩ := step_shutdownReturn hs
    subst e
    cases err <;>
    simpa only [List.filterMap_append, List.filterMap_cons, List.filterMap_nil,
      Event.spawned?, Event.enqueued?, Event.sent?, List.append_nil] using h
  | closeQueue =>
    obtain ⟨_, ⟨hc, e⟩ | ⟨hc, e⟩⟩ := step_closeQueue hs <;> subst e <;>
    simpa only [List.filterMap_append, List.filterMap_cons, List.filterMap_nil,
      Event.spawned?, Event.enqueued?, Event.sent?, List.append_nil] using h
  | mainReturn =>
    obtain ⟨_, e⟩ := step_mainReturn hs
    subst e
    simpa only [List.filterMap_append, List.filterMap_cons, List.filterMap_nil,
      Event.spawned?, Event.enqueued?, Event.sent?, List.append_nil] using h

/-- While no handler overtakes, insert order is select order followed by the waiting handlers. -/
theorem order_step {a : Action} {s s1 : Sys} (ha : a.overtakes = false)
    (h : createdOf s.trace = selectedOf s.trace ++ s.inflight)
    (hs : step a s = some s1) :
    createdOf s1.trace = selectedOf s1.trace ++ s1.inflight := by
  unfold createdOf selectedOf at h ⊢
  cases a with
  | request db r =>
    have e := step_request hs
    subst e
    rcases handleUntilSelect_cases db r with ⟨resp, h1, _⟩ | ⟨_, _, h1⟩ | ⟨_, _, _, h1⟩ | ⟨_, _, h1⟩ <;>
      rw [h1] <;>
      simp only [List.filterMap_append, List.filterMap_cons, List.filterMap_nil,
        Event.created?, Event.selected?, List.append_nil, Option.toList, h, List.append_assoc]
  | select i =>
    have hi : i = 0 := by simpa [Action.overtakes] using ha
    subst hi
    obtain ⟨req, hg, ⟨hc, hl, e⟩ | ⟨hc, hl, e⟩ | ⟨hc, e⟩⟩ := step_select hs <;> subst e <;>
      simp only [List.filterMap_append, List.filterMap_cons, List.filterMap_nil,
        Event.created?, Event.selected?, List.append_nil, h, List.append_assoc] <;>
      (cases hin : s.inflight with
       | nil => simp [hin] at hg
       | cons b rest =>
         simp [hin] at hg
         subst hg
         simp)
  | deferred j =>
    obtain ⟨p0, hg, ⟨hc, hl, e⟩ | ⟨hc, e⟩⟩ := step_deferred hs <;> subst e <;>
      simpa only [List.filterMap_append, List.filterMap_cons, List.filterMap_nil,
        Event.created?, Event.selected?, List.append_nil] using h
  | workerRecv =>
    obtain ⟨_, ⟨p0, rest, hb, e⟩ | ⟨_, _, e⟩⟩ := step_workerRecv hs <;> subst e <;>
      simpa only [List.filterMap_append, List.filterMap_cons, List.filterMap_nil,
        Event.created?, Event.selected?, List.append_nil] using h
  | workerDone =>
    obtain ⟨p0, _, e⟩ := step_workerDone hs
    subst e
    simpa only [List.filterMap_append, List.filterMap_cons, List.filterMap_nil,
      Event.created?, Event.selected?, List.append_nil] using h
  | signal =>
    obtain ⟨_, e⟩ := step_signal hs
    subst e
    simpa only [List.filterMap_append, List.filterMap_cons, List.filterMap_nil,
      Event.created?, Event.selected?, List.append_nil] using h
  | shutdownReturn err =>
    obtain ⟨_, e⟩ := step_shutdownReturn hs
    subst e
    cases err <;>
    simpa only [List.filterMap_append, List.filterMap_cons, List.filterMap_nil,
      Event.created?, Event.selected?, List.append_nil] using h
  | closeQueue =>
    obtain ⟨_, ⟨hc, e⟩ | ⟨hc, e⟩⟩ := step_closeQueue hs <;> subst e <;>
    simpa only [List.filterMap_append, List.filterMap_cons, List.filterMap_nil,
      Event.created?, Event.selected?, List.append_nil] using h
  | mainReturn =>
    obtain ⟨_, e⟩ := step_mainReturn hs
    subst e
    simpa only [List.filterMap_append, List.filterMap_cons, List.filterMap_nil,
      Event.created?, Event.selected?, List.append_nil] using h

/-! ## Producer-only runs -/

/-- The initial state satisfies the producer invariant. -/
theorem producerInv_main : ProducerInv main := by
  simp [ProducerInv, main, Chan.make, consumedOf, sentOf, spawnedOf]

/-- Producer steps keep the producer invariant. -/
theorem producerInv_step {a : Action} {s s1 : Sys} (ha : a.isProducer = true)
    (h : ProducerInv s ∧ QueueInv s) (hs : step a s = some s1) :
    ProducerInv s1 ∧ QueueInv s1 := by
  refine ⟨?_, queueInv_step h.2 hs⟩
  obtain ⟨⟨p1, p2, p3, p4, p5, p6, p7, p8⟩, q1, q2, _⟩ := h
  unfold ProducerInv
  simp only [consumedOf, sentOf, spawnedOf] at p5 p6 p7 ⊢
  cases a with
  | request db r =>
    have e := step_request hs
    subst e
    rcases handleUntilSelect_cases db r with ⟨resp, h1, _⟩ | ⟨_, _, h1⟩ | ⟨_, _, _, h1⟩ | ⟨_, _, h1⟩ <;>
      rw [h1] <;>
      simp only [List.filterMap_append, List.filterMap_cons, List.filterMap_nil,
        Event.consumed?, Event.sent?, Event.spawned?, List.append_nil] <;>
      exact ⟨p1, p2, p3, p4, p5, p6, p7, p8⟩
  | select i =>
    obtain ⟨req, hg, ⟨hc, hl, e⟩ | ⟨hc, hl, e⟩ | ⟨hc, e⟩⟩ := step_select hs <;> subst e <;>
      simp only [List.filterMap_append, List.filterMap_cons, List.filterMap_nil,
        Event.consumed?, Event.sent?, Event.spawned?, List.append_nil]
    · refine ⟨p1, p2, p3, p4, p5, by rw [p6], p7, ?_⟩
      intro hne
      have := p8 hne
      omega
    · refine ⟨p1, p2, p3, p4, p5, p6, by rw [p7], ?_⟩
      intro _
      omega
    · rw [p3] at hc
      cases hc
  | deferred j =>
    obtain ⟨p0, hg, ⟨hc, hl, e⟩ | ⟨hc, e⟩⟩ := step_deferred hs
    · have hne : s.pending ≠ [] := by
        intro h0
        rw [h0] at hg
        simp at hg
      have := p8 hne
      omega
    · rw [p3] at hc
      cases hc
  | workerRecv => cases ha
  | workerDone => cases ha
  | signal => cases ha
  | shutdownReturn err => cases ha
  | closeQueue => cases ha
  | mainReturn => cases ha

/-- Producer-only runs satisfy the producer and the queue invariant. -/
theorem producerInv_run {acts : List Action} {s : Sys} (hp : ∀ a ∈ acts, a.isProducer = true)
    (h : run acts main = some s) : ProducerInv s ∧ QueueInv s :=
  run_invariant (fun s => ProducerInv s ∧ QueueInv s) (fun a => a.isProducer = true)
    (fun _ _ _ ha hP hs => producerInv_step ha hP hs)
    acts main s hp ⟨producerInv_main, queueInv_main⟩ h

/-- The queue stays open under every step but the close. -/
theorem open_step {a : Action} {s s1 : Sys} (ha : a.closes = false)
    (h : s.ch.closed = false) (hs : step a s = some s1) : s1.ch.closed = false := by
  cases a with
  | request db r =>
    have e := step_request hs
    subst e
    exact h
  | select i =>
    obtain ⟨req, hg, ⟨hc, hl, e⟩ | ⟨hc, hl, e⟩ | ⟨hc, e⟩⟩ := step_select hs <;> subst e <;>
      exact h
  | deferred j =>
    obtain ⟨p0, hg, ⟨hc, hl, e⟩ | ⟨hc, e⟩⟩ := step_deferred hs <;> subst e <;> exact h
  | workerRecv =>
    obtain ⟨_, ⟨p0, rest, hb, e⟩ | ⟨_, _, e⟩⟩ := step_workerRecv hs <;> subst e <;> exact h
  | workerDone =>
    obtain ⟨p0, _, e⟩ := step_workerDone hs
    subst e
    exact h
  | signal =>
    obtain ⟨_, e⟩ := step_signal hs
    subst e
    exact h
  | shutdownReturn err =>
    obtain ⟨_, e⟩ := step_shutdownReturn hs
    subst e
    exact h
  | closeQueue => cases ha
  | mainReturn =>
    obtain ⟨_, e⟩ := step_mainReturn hs
    subst e
    exact h

/-- Conservation in permutation form, for a state whose queue is still open. -/
theorem conservation_of_inv {s : Sys} (h : QueueInv s) (ho : s.ch.closed = false) :
    (createdOf s.trace).Perm (s.inflight ++ s.ch.buf ++ s.pending ++ consumedOf s.trace) := by
  obtain ⟨_, _, _, q4, _, q6⟩ := h
  rw [List.perm_iff_count]
  intro p
  rw [q4 p, q6 ho]
  simp only [List.count_append, List.count_nil]
  omega

/-! ## Validation and configuration -/

/-- What is left after dropping a prefix satisfies the test throughout only when nothing is left. -/
theorem dropWhile_all_iff (p : Char → Bool) (l : List Char) :
    (∀ c ∈ l.dropWhile p, p c = true) ↔ l.dropWhile p = [] := by
  induction l with
  | nil => simp
  | cons a t ih =>
    by_cases h : p a = true
    · simpa [List.dropWhile_cons, h] using ih
    · simp [List.dropWhile_cons, h]

/-- Trimming leaves nothing exactly when every character is white space. -/
theorem TrimSpace_eq_empty_iff (s : String) :
    TrimSpace s = "" ↔ ∀ c ∈ s.data, isSpace c = true := by
  unfold TrimSpace
  rw [String.ext_iff]
  show ((List.dropWhile isSpace (List.dropWhile isSpace s.data).reverse).reverse) = [] ↔ _
  rw [List.reverse_eq_nil_iff, List.dropWhile_eq_nil_iff]
  simp only [List.mem_reverse]
  rw [dropWhile_all_iff, List.dropWhile_eq_nil_iff]

/-- Below zero means: not NaN, sign bit set, and not the negative zero. -/
theorem Float64.lt_zero_iff (x : Float64) :
    x.lt Float64.zero = true ↔ x.isNaN = false ∧ x.sign = true ∧ x.isZero = false := by
  obtain ⟨s, e, m⟩ := x
  simp [Float64.lt, Float64.zero, Float64.isNaN, Float64.key, Float64.isZero]
  cases s <;> simp <;> omega

/-- At least zero excludes below zero. -/
theorem Float64.not_lt_zero_of_le (x : Float64) (h : Float64.zero.le x = true) :
    x.lt Float64.zero = false := by
  obtain ⟨s, e, m⟩ := x
  simp [Float64.lt, Float64.le, Float64.zero, Float64.isNaN, Float64.key] at h ⊢
  intro _
  omega

/-- On finite values, below zero in the IEEE order means a negative real value. -/
theorem Float64.lt_zero_iff_toRat (x : Float64) (hf : x.isFinite = true) :
    x.lt Float64.zero = true ↔ ∃ q, x.toRat = some q ∧ q < 0 := by
  rw [Float64.lt_zero_iff]
  obtain ⟨s, e, m⟩ := x
  have he : e.val ≠ 2047 := by simpa [Float64.isFinite] using hf
  simp only [Float64.isNaN, Float64.isZero, Float64.toRat, he, if_false]
  have hpos1 : (0 : ℚ) < (2 : ℚ) ^ (-1074 : Int) := by positivity
  have hpos2 : (0 : ℚ) < (2 : ℚ) ^ ((e.val : Int) - 1075) := by positivity
  by_cases h0 : e.val = 0
  · simp only [h0, if_true]
    cases s
    · simp
      positivity
    · by_cases hm : m.val = 0
      · simp [hm]
      · have : (0 : ℚ) < (m.val : ℚ) := by exact_mod_cast Nat.pos_of_ne_zero hm
        simp [hm]
        positivity
  · simp only [h0, if_false]
    cases s
    · simp
      positivity
    · simp [he, h0]
      positivity

/-- The bit pattern `f250000` is the number 250000. -/
theorem f250000_value : f250000.toRat = some 250000 := by
  have h1 : ((1040 : Fin 2048) : Nat) = 1040 := rfl
  have h2 : ((4086334964629504 : Fin 4503599627370496) : Nat) = 4086334964629504 := rfl
  simp only [Float64.toRat, f250000, h1, h2]
  norm_num

/-- C1: `validateProduct` returns an error exactly when the name is empty after
trimming white space, or the price is below zero, or the stock is below zero; a product
with a non-blank name, a price of at least zero and a stock of at least zero is
accepted; a name trims to the empty string exactly when it consists of white space
only; and a finite price is below zero exactly when the number it stands for is
negative. -/
theorem validateProduct_rejects_exactly_invalid (p : Product) :
    ((validateProduct p).isSome = true ↔
      (TrimSpace p.Name = "" ∨ p.Price.lt Float64.zero = true ∨ p.Stock < 0)) ∧
    ((TrimSpace p.Name ≠ "" ∧ Float64.zero.le p.Price = true ∧ 0 ≤ p.Stock) →
      validateProduct p = none) ∧
    (TrimSpace p.Name = "" ↔ ∀ c ∈ p.Name.data, isSpace c = true) ∧
    (p.Price.isFinite = true →
      (p.Price.lt Float64.zero = true ↔ ∃ q, p.Price.toRat = some q ∧ q < 0)) := by
  refine ⟨?_, ?_, TrimSpace_eq_empty_iff p.Name, Float64.lt_zero_iff_toRat p.Price⟩
  · unfold validateProduct
    split_ifs <;> simp_all
  · rintro ⟨h1, h2, h3⟩
    have h4 := Float64.not_lt_zero_of_le p.Price h2
    unfold validateProduct
    rw [if_neg h1, h4]
    simp
    omega

/-- C1 at concrete products: a blank name, a price of -1 and a stock of -1 are each
rejected with their own reason, and the mouse is accepted. -/
theorem validateProduct_examples :
    validateProduct { mouse with Name := " \t" } = some "nama produk wajib diisi" ∧
    validateProduct { mouse with Price := fNeg1 } = some "harga tidak boleh bernilai negatif" ∧
    validateProduct { mouse with Stock := -1 } = some "stok tidak boleh bernilai negatif" ∧
    validateProduct mouse = none := by
  have h := (validateProduct_rejects_exactly_invalid mouse).2.1 (by decide)
  exact ⟨by decide, by decide, by decide, h⟩

/-- C10: `loadConfig` returns as `Port` the value of `APP_PORT` when that value is
non-empty after trimming and "8080" otherwise, as `DSN` the value of `DB_DSN` when that
value is non-empty after trimming and the default DSN otherwise (the values are returned
untrimmed); `Port` depends on `APP_PORT` alone and `DSN` on `DB_DSN` alone. -/
theorem loadConfig_defaults_and_overrides (env : Env) :
    (loadConfig env).Port =
      (if TrimSpace (Getenv env "APP_PORT") = "" then "8080" else Getenv env "APP_PORT") ∧
    (loadConfig env).DSN =
      (if TrimSpace (Getenv env "DB_DSN") = "" then "root:@tcp(127.0.0.1:3306)/item?parseTime=true"
       else Getenv env "DB_DSN") ∧
    (∀ env2 : Env, Getenv env2 "APP_PORT" = Getenv env "APP_PORT" →
      (loadConfig env2).Port = (loadConfig env).Port) ∧
    (∀ env2 : Env, Getenv env2 "DB_DSN" = Getenv env "DB_DSN" →
      (loadConfig env2).DSN = (loadConfig env).DSN) := by
  refine ⟨rfl, rfl, ?_, ?_⟩
  · intro env2 h
    simp only [loadConfig, h]
  · intro env2 h
    simp only [loadConfig, h]

/-- C10 at concrete environments: the empty environment gives both defaults, a blank
`APP_PORT` gives the default port, set values are taken as they are, and setting
`DB_DSN` leaves the port alone. -/
theorem loadConfig_examples :
    loadConfig [] = ⟨"8080", "root:@tcp(127.0.0.1:3306)/item?parseTime=true"⟩ ∧
    loadConfig [("APP_PORT", "  "), ("DB_DSN", "u:p@tcp(db:3306)/shop")] =
      ⟨"8080", "u:p@tcp(db:3306)/shop"⟩ ∧
    loadConfig [("APP_PORT", "9090")] =
      ⟨"9090", "root:@tcp(127.0.0.1:3306)/item?parseTime=true"⟩ ∧
    (loadConfig [("DB_DSN", "u:p@tcp(db:3306)/shop")]).Port = (loadConfig []).Port :=
  ⟨by decide, by decide, by decide,
    (loadConfig_defaults_and_overrides []).2.2.1 [("DB_DSN", "u:p@tcp(db:3306)/shop")] rfl⟩

/-! ## The handler -/

/-- An invalid product gets a reason. -/
theorem validate_some_of_invalid {p : Product}
    (hinv : TrimSpace p.Name = "" ∨ p.Price.lt Float64.zero = true ∨ p.Stock < 0) :
    ∃ reason, validateProduct p = some reason := by
  unfold validateProduct
  split_ifs with h1 h2 h3
  · exact ⟨_, rfl⟩
  · exact ⟨_, rfl⟩
  · exact ⟨_, rfl⟩
  · rcases hinv with h | h | h
    · exact absurd h h1
    · exact absurd h h2
    · exact absurd h h3

/-- Taking a step of a running process for a request. -/
theorem step_request_eq (db : DB) (r : Request) (s : Sys) (hp : s.proc = .running) :
    step (.request db r) s =
      some { s with inflight := s.inflight ++ (handleUntilSelect db r).2.toList,
                    trace := s.trace ++ (handleUntilSelect db r).1 } := by
  unfold step
  rw [if_neg (by simp [hp])]
  dsimp only
  rcases handleUntilSelect db r with ⟨evs, _ | req⟩
  · simp
  · rfl

/-- C2: for a POST request whose decoded payload has a blank name, a negative price or
a negative stock, the handler writes status 400 with the reason of `validateProduct` and
does nothing else: no store call, the channel as it was, no goroutine started; as a
step of the system it only appends that response to the trace, whatever the state of the
queue. -/
theorem invalid_payload_short_circuits (a : App) (r : Request) (p : Product)
    (hm : r.method = "POST") (hd : r.decoded = some p)
    (hinv : TrimSpace p.Name = "" ∨ p.Price.lt Float64.zero = true ∨ p.Stock < 0) :
    ∃ reason, validateProduct p = some reason ∧
      handleCreateProduct a r = ([.respond ⟨400, .text reason⟩], a.notificationCh, []) ∧
      storeCallsOf (handleCreateProduct a r).1 = [] ∧
      ∀ s : Sys, s.proc = .running →
        step (.request a.db r) s =
          some { s with trace := s.trace ++ [.respond ⟨400, .text reason⟩] } := by
  obtain ⟨reason, hv⟩ := validate_some_of_invalid hinv
  have hh : handleUntilSelect a.db r = ([.respond ⟨400, .text reason⟩], none) := by
    unfold handleUntilSelect
    rw [if_neg (by simp [hm]), hd]
    simp only [hv]
  have hc : handleCreateProduct a r = ([.respond ⟨400, .text reason⟩], a.notificationCh, []) := by
    unfold handleCreateProduct
    rw [hh]
  refine ⟨reason, hv, hc, by rw [hc]; rfl, ?_⟩
  intro s hp
  rw [step_request_eq a.db r s hp, hh]
  simp

/-- C2 at the payload with an empty name, price 10 and stock 1, on a fresh queue. -/
theorem invalid_payload_witness :
    handleCreateProduct ⟨dbOk 1, Chan.make 100⟩ (post { keyboard with Name := "" }) =
      ([.respond ⟨400, .text "nama produk wajib diisi"⟩], Chan.make 100, []) := by
  obtain ⟨reason, hv, hc, _⟩ :=
    invalid_payload_short_circuits ⟨dbOk 1, Chan.make 100⟩ (post { keyboard with Name := "" })
      { keyboard with Name := "" } rfl rfl (Or.inl (by decide))
  have hr : reason = "nama produk wajib diisi" := by
    have : validateProduct { keyboard with Name := "" } = some "nama produk wajib diisi" := by
      decide
    rw [this] at hv
    exact (Option.some.inj hv).symm
  rw [hc, hr]

/-- C3: for a valid POST request whose store insert returns an error, the handler makes
the one store call, logs the failure, writes status 500, and neither sends to the channel
nor starts a goroutine; as a step of the system it only appends those three events to
the trace, whatever the state of the queue. -/
theorem store_failure_never_notifies (a : App) (r : Request) (p : Product) (id : Int)
    (err : String) (hm : r.method = "POST") (hd : r.decoded = some p)
    (hv : validateProduct p = none) (hins : insertProduct a.db p = (id, some err)) :
    handleCreateProduct a r =
      ([.storeCall p, .logStoreFail err, .respond ⟨500, .text "gagal menyimpan produk"⟩],
        a.notificationCh, []) ∧
    ∀ s : Sys, s.proc = .running →
      step (.request a.db r) s =
        some { s with trace := s.trace ++
          [.storeCall p, .logStoreFail err,
            .respond ⟨500, .text "gagal menyimpan produk"⟩] } := by
  have hh : handleUntilSelect a.db r =
      ([.storeCall p, .logStoreFail err, .respond ⟨500, .text "gagal menyimpan produk"⟩],
        none) := by
    unfold handleUntilSelect
    rw [if_neg (by simp [hm]), hd]
    simp only [hv, hins]
  refine ⟨?_, ?_⟩
  · unfold handleCreateProduct
    rw [hh]
  · intro s hp
    rw [step_request_eq a.db r s hp, hh]
    simp

/-- C3 at the mouse payload with a failing store and a full queue. -/
theorem store_failure_witness :
    (handleCreateProduct ⟨dbFail, ⟨List.replicate 100 keyboard, 100, false⟩⟩ (post mouse)).2 =
      (⟨List.replicate 100 keyboard, 100, false⟩, []) := by
  rw [(store_failure_never_notifies ⟨dbFail, ⟨List.replicate 100 keyboard, 100, false⟩⟩
    (post mouse) mouse 0 "connection refused" rfl rfl (by decide) rfl).1]

/-- C4, amended: for a valid POST request (finite price, as JSON decoding yields) whose
store insert succeeds with identifier `i`, the handler writes exactly one response,
status 201 with the JSON encoding of the entity that has the name, price and stock of
the request and the identifier `i` in place of whatever the payload carried: the keys
`name`, `price` and `stock` always, and before them the key `id` with value `i` exactly
when `i` is not 0 (the struct tag `omitempty`); on an open channel with room the
handler sends that entity directly, on a full one it starts one goroutine holding that
entity, and the response is the same in both cases. -/
theorem success_output_is_identified_entity (a : App) (r : Request) (p : Product) (i : Int)
    (hm : r.method = "POST") (hd : r.decoded = some p) (hv : validateProduct p = none)
    (hfin : p.Price.isFinite = true) (hins : insertProduct a.db p = (i, none)) :
    ∃ (e : Product) (fields : List (String × JSON)),
      e = { ID := i, Name := p.Name, Price := p.Price, Stock := p.Stock } ∧
      fields = (if i = 0 then [] else [("id", JSON.int i)]) ++
        [("name", JSON.str p.Name), ("price", JSON.num p.Price), ("stock", JSON.int p.Stock)] ∧
      responsesOf (handleCreateProduct a r).1 = [⟨201, .json fields⟩] ∧
      (a.notificationCh.closed = false →
        a.notificationCh.buf.length < a.notificationCh.cap →
        handleCreateProduct a r =
          ([.storeCall p, .created e, .respond ⟨201, .json fields⟩, .sent e],
            { a.notificationCh with buf := a.notificationCh.buf ++ [e] }, [])) ∧
      (a.notificationCh.closed = false →
        a.notificationCh.cap ≤ a.notificationCh.buf.length →
        handleCreateProduct a r =
          ([.storeCall p, .created e, .respond ⟨201, .json fields⟩, .spawned e],
            a.notificationCh, [e])) := by
  have henc : encodeProduct { ID := i, Name := p.Name, Price := p.Price, Stock := p.Stock } =
      some ((if i = 0 then [] else [("id", JSON.int i)]) ++
        [("name", JSON.str p.Name), ("price", JSON.num p.Price), ("stock", JSON.int p.Stock)]) := by
    unfold encodeProduct
    simp only [hfin, if_true]
  have hh : handleUntilSelect a.db r =
      ([.storeCall p, .created { ID := i, Name := p.Name, Price := p.Price, Stock := p.Stock },
        .respond ⟨201, .json ((if i = 0 then [] else [("id", JSON.int i)]) ++
          [("name", JSON.str p.Name), ("price", JSON.num p.Price),
            ("stock", JSON.int p.Stock)])⟩],
        some { ID := i, Name := p.Name, Price := p.Price, Stock := p.Stock }) := by
    unfold handleUntilSelect
    rw [if_neg (by simp [hm]), hd]
    simp only [hv, hins, henc]
  refine ⟨_, _, rfl, rfl, ?_, ?_, ?_⟩
  · unfold handleCreateProduct
    rw [hh]
    simp only [selectSend, Chan.send]
    split_ifs <;> rfl
  · intro hc hl
    unfold handleCreateProduct
    rw [hh]
    simp only [selectSend, Chan.send, hc, hl]
    simp
  · intro hc hl
    unfold handleCreateProduct
    rw [hh]
    simp only [selectSend, Chan.send, hc, Nat.not_lt.mpr hl]
    simp

/-- C4 as stated fails at store identifier 0: for the valid mouse payload the handler
answers 201 with a body that has the keys `name`, `price` and `stock` and no `id` key,
which is not the entity with its identifier. -/
theorem success_body_omits_zero_id :
    responsesOf (handleCreateProduct ⟨dbOk 0, Chan.make 100⟩ (post mouse)).1 =
      [⟨201, .json [("name", .str "Mouse"), ("price", .num f250000), ("stock", .int 15)]⟩] ∧
    responsesOf (handleCreateProduct ⟨dbOk 0, Chan.make 100⟩ (post mouse)).1 ≠
      [⟨201, .json [("id", .int 0), ("name", .str "Mouse"), ("price", .num f250000),
        ("stock", .int 15)]⟩] ∧
    createdOf (handleCreateProduct ⟨dbOk 0, Chan.make 100⟩ (post mouse)).1 =
      [{ mouse with ID := 0 }] := by
  refine ⟨by decide, by decide, by decide⟩

/-- C4 amended, at the mouse payload with store identifier 1: status 201 and the body
`{"id":1,"name":"Mouse","price":250000,"stock":15}`, on the empty queue and on a
full one alike. -/
theorem success_output_witness :
    responsesOf (handleCreateProduct ⟨dbOk 1, Chan.make 100⟩ (post mouse)).1 =
      [⟨201, .json [("id", .int 1), ("name", .str "Mouse"), ("price", .num f250000),
        ("stock", .int 15)]⟩] ∧
    responsesOf (handleCreateProduct ⟨dbOk 1, ⟨List.replicate 100 keyboard, 100, false⟩⟩
      (post { mouse with ID := 7 })).1 =
      [⟨201, .json [("id", .int 1), ("name", .str "Mouse"), ("price", .num f250000),
        ("stock", .int 15)]⟩] ∧
    f250000.toRat = some 250000 := by
  obtain ⟨e1, f1, _, hf1, h1, _⟩ :=
    success_output_is_identified_entity ⟨dbOk 1, Chan.make 100⟩ (post mouse) mouse 1
      rfl rfl (by decide) (by decide) rfl
  obtain ⟨e2, f2, _, hf2, h2, _⟩ :=
    success_output_is_identified_entity ⟨dbOk 1, ⟨List.replicate 100 keyboard, 100, false⟩⟩
      (post { mouse with ID := 7 }) { mouse with ID := 7 } 1 rfl rfl (by decide) (by decide) rfl
  refine ⟨?_, ?_, f250000_value⟩
  · rw [h1, hf1]; rfl
  · rw [h2, hf2]; rfl

/-! ## Order of notifications -/

set_option maxRecDepth 100000

/-- C5 as stated fails: with two overlapping requests whose selects all take the direct
path, the inserts complete for identifier 1 then 2, while the worker dequeues 2 then 1. -/
theorem fifo_by_insert_order_counterexample :
    ∃ s, run overtakingSchedule main = some s ∧
      (∀ e ∈ s.trace, e.offDirect = false) ∧
      (createdOf s.trace).map Product.ID = [1, 2] ∧
      (consumedOf s.trace).map Product.ID = [2, 1] ∧
      ¬ (consumedOf s.trace) <+: (createdOf s.trace) := by
  refine ⟨_, rfl, by decide, by decide, by decide, by decide⟩

/-- C5, amended: in every run in which each `select` took the direct send (the queue
had room and was open), the events the worker has dequeued, followed by those still
queued, are exactly the events in the order in which the handlers executed their
direct send, none duplicated or missing; and when the handlers reach the `select` in
the order in which their inserts completed (as when requests are handled one at a
time), that order is the order of insert completion. -/
theorem fifo_on_direct_path (acts : List Action) (s : Sys)
    (hrun : run acts main = some s) (hdirect : ∀ e ∈ s.trace, e.offDirect = false) :
    consumedOf s.trace ++ s.ch.buf = sentOf s.trace ∧
    ((∀ a ∈ acts, a.overtakes = false) →
      consumedOf s.trace ++ s.ch.buf ++ s.inflight = createdOf s.trace) := by
  have hq := queueInv_run hrun
  have hsel := selectedOf_direct s.trace hdirect
  have hd : spawnedOf s.trace = [] → s.pending = [] ∧ enqueuedOf s.trace = sentOf s.trace :=
    run_invariant
      (fun s => spawnedOf s.trace = [] → s.pending = [] ∧ enqueuedOf s.trace = sentOf s.trace)
      (fun _ => True) (fun _ _ _ _ hP hs => direct_step hP hs) acts main s
      (fun _ _ => trivial) (fun _ => ⟨rfl, rfl⟩) hrun
  have h1 : consumedOf s.trace ++ s.ch.buf = sentOf s.trace := by
    rw [hq.2.2.1, (hd hsel.2).2]
  refine ⟨h1, ?_⟩
  intro hno
  have ho : createdOf s.trace = selectedOf s.trace ++ s.inflight :=
    run_invariant (fun s => createdOf s.trace = selectedOf s.trace ++ s.inflight)
      (fun a => a.overtakes = false) (fun _ _ _ ha hP hs => order_step ha hP hs) acts main s
      hno rfl hrun
  rw [ho, hsel.1, h1]

/-- C5 amended, at three creations handled one after the other and two dequeues: the
worker took 1 and 2, 3 is still queued, and that is the order of the inserts. -/
theorem fifo_on_direct_path_witness :
    (consumedOf sequentialState.trace).map Product.ID = [1, 2] ∧
    sequentialState.ch.buf.map Product.ID = [3] ∧
    consumedOf sequentialState.trace ++ sequentialState.ch.buf ++ sequentialState.inflight =
      createdOf sequentialState.trace :=
  ⟨by decide, by decide,
    (fifo_on_direct_path sequentialSchedule sequentialState (by decide) (by decide)).2
      (by decide)⟩

/-! ## Overflow -/

set_option maxRecDepth 1000000
set_option maxHeartbeats 4000000

/-- Conservation in terms of lengths. -/
theorem length_of_counts {s : Sys} (h : QueueInv s) (ho : s.ch.closed = false) :
    (createdOf s.trace).length =
      s.inflight.length + s.ch.buf.length + s.pending.length + (consumedOf s.trace).length := by
  have := (conservation_of_inv h ho).length_eq
  simp only [List.length_append] at this
  omega

/-- The receive of an idle worker on a non-empty open queue. -/
theorem step_workerRecv_eq (s : Sys) (p : Product) (rest : List Product)
    (hp : s.proc = .running) (hw : s.worker = .idle) (hb : s.ch.buf = p :: rest) :
    step .workerRecv s =
      some { s with worker := .busy p, ch := { s.ch with buf := rest },
                    trace := s.trace ++ [.notifyStart p] } := by
  unfold step
  rw [if_neg (by simp [hp])]
  simp [backgroundNotifier, Chan.recv, hw, hb]

/-- The send of a deferred goroutine on an open queue with room. -/
theorem step_deferred_eq (s : Sys) (j : Nat) (p : Product)
    (hp : s.proc = .running) (hg : s.pending[j]? = some p) (hc : s.ch.closed = false)
    (hl : s.ch.buf.length < s.ch.cap) :
    step (.deferred j) s =
      some { s with ch := { s.ch with buf := s.ch.buf ++ [p] },
                    pending := s.pending.eraseIdx j,
                    trace := s.trace ++ [.deferredSent p] } := by
  unfold step
  rw [if_neg (by simp [hp])]
  simp [hg, Chan.send, hc, hl]

/-- In a running state with the queue open, no handler step is blocked. -/
theorem neverBlocks_of_open (s : Sys) (hp : s.proc = .running) (hc : s.ch.closed = false) :
    NeverBlocks s := by
  refine ⟨?_, ?_⟩
  · intro db r
    exact ⟨_, step_request_eq db r s hp, hp⟩
  · intro i hi
    have hg : s.inflight[i]? = some (s.inflight.get ⟨i, hi⟩) := by
      simp [List.getElem?_eq_getElem hi]
    by_cases hl : s.ch.buf.length < s.ch.cap
    · refine ⟨{ s with ch := { s.ch with buf := s.ch.buf ++ [s.inflight.get ⟨i, hi⟩] },
                       inflight := s.inflight.eraseIdx i,
                       trace := s.trace ++ [.sent (s.inflight.get ⟨i, hi⟩)] },
        ?_, rfl, hp, hc, Or.inl ⟨hl, rfl, rfl⟩⟩
      unfold step
      rw [if_neg (by simp [hp])]
      simp [hg, selectSend, Chan.send, hc, hl]
    · refine ⟨{ s with inflight := s.inflight.eraseIdx i,
                       pending := s.pending ++ [s.inflight.get ⟨i, hi⟩],
                       trace := s.trace ++ [.spawned (s.inflight.get ⟨i, hi⟩)] },
        ?_, rfl, hp, hc, Or.inr ⟨Nat.le_of_not_lt hl, rfl, rfl⟩⟩
      unfold step
      rw [if_neg (by simp [hp])]
      simp [hg, selectSend, Chan.send, hc, hl]

/-- The handlers standing before their select can all execute it, one after the
other, and nothing is created on the way. -/
theorem complete_inflight (n : Nat) : ∀ s : Sys, s.proc = .running → s.ch.closed = false →
    s.inflight.length = n →
    ∃ sf, run (List.replicate n (.select 0)) s = some sf ∧ sf.inflight = [] ∧
      createdOf sf.trace = createdOf s.trace := by
  induction n with
  | zero =>
    intro s _ _ hn
    exact ⟨s, rfl, List.length_eq_zero.mp hn, rfl⟩
  | succ m ih =>
    intro s hp hc hn
    obtain ⟨s1, h1, h2, h3, h4, _⟩ := (neverBlocks_of_open s hp hc).2 0 (by omega)
    have hlen : s1.inflight.length = m := by
      rw [h2, List.length_eraseIdx, if_pos (by omega)]
      omega
    obtain ⟨sf, hf1, hf2, hf3⟩ := ih s1 h3 h4 hlen
    refine ⟨sf, ?_, hf2, ?_⟩
    · simp only [List.replicate_succ, run, h1]
      exact hf1
    · rw [hf3]
      obtain ⟨req, _, ⟨_, _, e⟩ | ⟨_, _, e⟩ | ⟨_, e⟩⟩ := step_select h1 <;> subst e <;>
        simp [createdOf, List.filterMap_append, Event.created?]

/-- What `100 + k` completed creations leave behind when nobody dequeues. -/
theorem overflowed_of_done (k : Nat) (acts : List Action) (s : Sys)
    (hk : 0 < k) (hprod : ∀ a ∈ acts, a.isProducer = true)
    (hrun : run acts main = some s) (hdone : s.inflight = [])
    (hcount : (createdOf s.trace).length = 100 + k) : Overflowed k s := by
  obtain ⟨⟨p1, p2, p3, p4, p5, p6, p7, p8⟩, hq⟩ := producerInv_run hprod hrun
  have hlen := length_of_counts hq p3
  rw [hdone, p5, hcount] at hlen
  simp only [List.length_nil, Nat.zero_add, Nat.add_zero] at hlen
  have hle := hq.2.1
  have hne : s.pending ≠ [] := by
    intro h0
    rw [h0] at hlen
    simp at hlen
    omega
  have hfull := p8 hne
  have hperm := conservation_of_inv hq p3
  rw [hdone, p5] at hperm
  simp only [List.nil_append, List.append_nil] at hperm
  refine ⟨hdone, by rw [hq.2.2.2.2.1, hcount], p4, p6, hfull, p7, by omega, hperm, ?_, ?_⟩
  · intro j
    cases hs : step (.deferred j) s with
    | none => rfl
    | some s1 =>
      obtain ⟨_, _, ⟨_, hl, _⟩ | ⟨hc, _⟩⟩ := step_deferred hs
      · rw [hq.1] at hl
        omega
      · rw [p3] at hc
        cases hc
  · cases hb : s.ch.buf with
    | nil =>
      rw [hb] at hfull
      simp at hfull
    | cons b rest =>
      refine ⟨_, step_workerRecv_eq s b rest p4 p2 hb, ?_⟩
      intro j hj
      have hg : s.pending[j]? = some (s.pending.get ⟨j, hj⟩) := by
        simp [List.getElem?_eq_getElem hj]
      have hrest : rest.length < s.ch.cap := by
        rw [hb] at hfull
        simp only [List.length_cons] at hfull
        rw [hq.1]
        omega
      refine ⟨_, step_deferred_eq _ j _ p4 hg p3 hrest, rfl, rfl, p4⟩

/-- C6: starting from the empty queue of capacity 100 that `main` creates, let only
handlers and deferred senders move (the worker dequeues nothing, the queue stays open)
until `100 + k` creations (`k > 0`) have been persisted. Then there are `100 + k`
responses with status 201 and the process is running. No handler is ever blocked: at
this point, at every earlier point of the run and at every point of a continuation that
does not close the queue, any request runs up to its `select` and every `select`
executes at once, sending directly when the queue has room and starting a deferred
sender when it is full. So the handlers still before their `select` can all complete,
and whenever all have completed the queue holds exactly the 100 events that were sent
directly, the other `k` events are held one each by `k` deferred senders, which cannot
proceed while the queue is full, and once the worker has received one event each of
them can place its own event at the tail of the queue. At every point of the run,
and of any continuation that does not close the queue, the queue holds at most 100
events and the events of the persisted entities are exactly those in the queue, held
by a deferred send, dequeued by the worker, or still with a handler that has not yet
executed its `select`. -/
theorem overflow_never_blocks_never_drops (k : Nat) (acts : List Action) (s : Sys)
    (hk : 0 < k) (hprod : ∀ a ∈ acts, a.isProducer = true)
    (hrun : run acts main = some s)
    (hcount : (createdOf s.trace).length = 100 + k) :
    (responsesOf s.trace).countP Response.isCreated = 100 + k ∧
    s.proc = .running ∧
    NeverBlocks s ∧
    (∃ sf, run (List.replicate s.inflight.length (.select 0)) s = some sf ∧
      Overflowed k sf) ∧
    (s.inflight = [] → Overflowed k s) ∧
    (∀ n, ∃ sn, run (acts.take n) main = some sn ∧ NeverBlocks sn ∧
      sn.ch.buf.length ≤ 100 ∧
      (createdOf sn.trace).Perm
        (sn.inflight ++ sn.ch.buf ++ sn.pending ++ consumedOf sn.trace)) ∧
    (∀ (more : List Action) (s3 : Sys), (∀ a ∈ more, a.closes = false) →
      run more s = some s3 →
      NeverBlocks s3 ∧ s3.ch.buf.length ≤ 100 ∧
      (createdOf s3.trace).Perm
        (s3.inflight ++ s3.ch.buf ++ s3.pending ++ consumedOf s3.trace)) := by
  obtain ⟨⟨p1, p2, p3, p4, p5, p6, p7, p8⟩, hq⟩ := producerInv_run hprod hrun
  refine ⟨by rw [hq.2.2.2.2.1, hcount], p4, neverBlocks_of_open s p4 p3, ?_,
    fun hdone => overflowed_of_done k acts s hk hprod hrun hdone hcount, ?_, ?_⟩
  · obtain ⟨sf, hf1, hf2, hf3⟩ := complete_inflight s.inflight.length s p4 p3 rfl
    refine ⟨sf, hf1, ?_⟩
    have hrunf : run (acts ++ List.replicate s.inflight.length (.select 0)) main = some sf := by
      rw [run_append, hrun]
      exact hf1
    have hprodf : ∀ a ∈ acts ++ List.replicate s.inflight.length (Action.select 0),
        a.isProducer = true := by
      intro a ha
      rcases List.mem_append.mp ha with h | h
      · exact hprod a h
      · rw [(List.mem_replicate.mp h).2]
        rfl
    exact overflowed_of_done k _ sf hk hprodf hrunf hf2 (by rw [hf3, hcount])
  · intro n
    obtain ⟨sn, hsn, _⟩ := run_take hrun n
    obtain ⟨hpn, hqn⟩ := producerInv_run
      (fun a ha => hprod a (List.mem_of_mem_take ha)) hsn
    exact ⟨sn, hsn, neverBlocks_of_open sn hpn.2.2.2.1 hpn.2.2.1, hqn.2.1,
      conservation_of_inv hqn hpn.2.2.1⟩
  · intro more s3 hmore hrun3
    have hq3 : QueueInv s3 :=
      run_invariant QueueInv (fun _ => True) (fun _ _ _ _ hP hs => queueInv_step hP hs)
        more s s3 (fun _ _ => trivial) hq hrun3
    have ho3 : s3.ch.closed = false :=
      run_invariant (fun s => s.ch.closed = false) (fun a => a.closes = false)
        (fun _ _ _ ha hP hs => open_step ha hP hs) more s s3 hmore p3 hrun3
    have hrun3m : run (acts ++ more) main = some s3 := by
      rw [run_append, hrun]
      exact hrun3
    obtain ⟨_, k2, k3, _⟩ := shutdownInv_run hrun3m
    have hp3 : s3.proc = .running := by
      apply k3
      intro hret
      have := k2.mpr hret
      rw [ho3] at this
      cases this
    exact ⟨neverBlocks_of_open s3 hp3 ho3, hq3.2.1, conservation_of_inv hq3 ho3⟩

/-- C6 at a burst of 101 creations: 101 responses with status 201, the queue holds the
100 events sent directly (identifiers 1 to 100) and one deferred sender holds 101. -/
theorem overflow_witness :
    (responsesOf overflowState.trace).countP Response.isCreated = 101 ∧
    Overflowed 1 overflowState ∧
    overflowState.ch.buf.length = 100 ∧
    overflowState.pending.map Product.ID = [101] :=
  have h := overflow_never_blocks_never_drops 1 (burst 101) overflowState (by decide)
    (by decide) (by decide) (by decide)
  ⟨h.1, h.2.2.2.2.1 (by decide), (h.2.2.2.2.1 (by decide)).2.2.2.2.1, by decide⟩

/-! ## Shutdown -/

/-- Nothing happens in a process that has ended. -/
theorem step_of_not_running (a : Action) (s : Sys) (h : s.proc ≠ .running) :
    step a s = none := by
  unfold step
  rw [if_pos h]

/-- A deferred send on a closed queue ends the process. -/
theorem deferred_on_closed_crashes (s : Sys) (j : Nat) (p : Product)
    (hp : s.proc = .running) (hc : s.ch.closed = true) (hg : s.pending[j]? = some p) :
    step (.deferred j) s =
      some { s with pending := s.pending.eraseIdx j, proc := .crashed,
                    trace := s.trace ++ [.fatalPanic p] } := by
  unfold step
  rw [if_neg (by simp [hp])]
  simp [hg, Chan.send, hc]

/-- The select of a handler on a closed queue panics. -/
theorem select_on_closed_panics (s : Sys) (i : Nat) (p : Product)
    (hp : s.proc = .running) (hc : s.ch.closed = true) (hg : s.inflight[i]? = some p) :
    step (.select i) s =
      some { s with inflight := s.inflight.eraseIdx i,
                    trace := s.trace ++ [.handlerPanic p] } := by
  unfold step
  rw [if_neg (by simp [hp])]
  simp [hg, selectSend, Chan.send, hc]

/-- The range loop of the worker ends only on a closed and empty queue. -/
theorem worker_stops_only_when_drained (a : Action) (s s1 : Sys)
    (hs : step a s = some s1) (h0 : s.worker ≠ .stopped) (h1 : s1.worker = .stopped) :
    a.isProducer = false ∧ s.ch.closed = true ∧ s.ch.buf = [] := by
  cases a with
  | request db r =>
    have e := step_request hs
    subst e
    exact absurd h1 h0
  | select i =>
    obtain ⟨req, hg, ⟨hc, hl, e⟩ | ⟨hc, hl, e⟩ | ⟨hc, e⟩⟩ := step_select hs <;> subst e <;>
      exact absurd h1 h0
  | deferred j =>
    obtain ⟨p0, hg, ⟨hc, hl, e⟩ | ⟨hc, e⟩⟩ := step_deferred hs <;> subst e <;>
      exact absurd h1 h0
  | workerRecv =>
    obtain ⟨_, ⟨p0, rest, hb, e⟩ | ⟨hb, hc, e⟩⟩ := step_workerRecv hs <;> subst e
    · cases h1
    · exact ⟨rfl, hc, hb⟩
  | workerDone =>
    obtain ⟨p0, _, e⟩ := step_workerDone hs
    subst e
    cases h1
  | signal =>
    obtain ⟨_, e⟩ := step_signal hs
    subst e
    exact absurd h1 h0
  | shutdownReturn err =>
    obtain ⟨_, e⟩ := step_shutdownReturn hs
    subst e
    exact absurd h1 h0
  | closeQueue =>
    obtain ⟨_, ⟨hc, e⟩ | ⟨hc, e⟩⟩ := step_closeQueue hs <;> subst e <;> exact absurd h1 h0
  | mainReturn =>
    obtain ⟨_, e⟩ := step_mainReturn hs
    subst e
    exact absurd h1 h0

/-- C7 fails on the code. With 101 creations handled (queue full, one deferred sender
waiting), a signal, a clean shutdown and the close, the deferred send runs on the
closed channel: the goroutine panics and the process ends crashed. With a handler
still before its `select` when a timed-out shutdown closes the queue, its `select`
panics too. In neither case is there a closed outcome that drops the event quietly. -/
theorem send_on_closed_queue_panics :
    (∃ s, run closeWhilePending main = some s ∧ s.proc = .crashed ∧
      (droppedOf s.trace).map Product.ID = [101] ∧
      s.trace.getLast? = some (.fatalPanic { mouse with ID := 101 })) ∧
    (∃ s, run closeWhileInflight main = some s ∧
      s.trace.getLast? = some (.handlerPanic { mouse with ID := 1 }) ∧
      s.ch.buf = [] ∧ s.pending = []) := by
  refine ⟨⟨_, rfl, by decide, by decide, by decide⟩, ⟨_, rfl, by decide, by decide, by decide⟩⟩

/-- C8 fails on the code. With one event enqueued before the signal, the run signal,
shutdown, close, return of `main` ends the process while that event is still in the
queue: the worker never logged its start or completion, and no further step exists. -/
theorem exit_without_drain :
    ∃ s, run exitWithQueued main = some s ∧ s.proc = .exited ∧
      s.ch.buf = [{ mouse with ID := 1 }] ∧ s.ch.closed = true ∧
      consumedOf s.trace = [] ∧ completedOf s.trace = [] ∧
      s.worker = .idle ∧ ∀ a, step a s = none := by
  refine ⟨_, rfl, by decide, by decide, by decide, by decide, by decide, by decide, ?_⟩
  intro a
  exact step_of_not_running a _ (by decide)

/-- C9: in every run, the channel has been closed once if `waitForShutdown` has
returned and not at all otherwise (and `close` never ran on a closed channel); the
channel is closed exactly in the states where `waitForShutdown` has returned; every
close in the trace comes after the receipt of the signal and after the return of
`server.Shutdown`; and from a state inside `server.Shutdown`, whether it returns nil or
an error, the return (with the error logged) and then the close are both possible and
leave the channel closed. -/
theorem shutdown_order (acts : List Action) (s : Sys) (hrun : run acts main = some s) :
    closesOf s.trace = (if s.coord = .returned then 1 else 0) ∧
    Event.closePanic ∉ s.trace ∧
    (s.ch.closed = true ↔ s.coord = .returned) ∧
    (∀ pre post, s.trace = pre ++ Event.queueClosed :: post →
      Event.signalReceived ∈ pre ∧ ∃ err, Event.shutdownReturned err ∈ pre) ∧
    (s.coord = .stopping → ∀ err : Option String, ∃ s1 s2,
      step (.shutdownReturn err) s = some s1 ∧ step .closeQueue s1 = some s2 ∧
      s2.trace = s.trace ++ (Event.shutdownReturned err ::
        err.toList.map Event.logShutdownFail) ++ [Event.queueClosed] ∧
      s2.ch.closed = true ∧ s2.coord = .returned ∧ closesOf s2.trace = 1) := by
  obtain ⟨k1, k2, k3, k4, k5, k6, k7⟩ := shutdownInv_run hrun
  refine ⟨k1, k7, k2, k6, ?_⟩
  intro hst err
  have hp : s.proc = .running := k3 (by simp [hst])
  have hcl : s.ch.closed = false := by
    cases hc : s.ch.closed with
    | false => rfl
    | true =>
      have := k2.mp hc
      rw [hst] at this
      cases this
  have e1 : step (.shutdownReturn err) s =
      some { s with coord := .closing,
                    trace := s.trace ++ (Event.shutdownReturned err ::
                      err.toList.map Event.logShutdownFail) } := by
    unfold step
    rw [if_neg (by simp [hp])]
    cases err <;> simp [waitForShutdown, hst, hp]
  refine ⟨_, { s with coord := .returned, ch := { s.ch with closed := true },
                      trace := s.trace ++ (Event.shutdownReturned err ::
                        err.toList.map Event.logShutdownFail) ++ [Event.queueClosed] },
    e1, ?_, rfl, rfl, rfl, ?_⟩
  · unfold step
    rw [if_neg (by simp [hp])]
    simp [waitForShutdown, hcl, hp]
  · have hz : closesOf s.trace = 0 := by simpa [hst] using k1
    unfold closesOf at hz ⊢
    cases err <;> simp [List.count_append, hz]

/-- C9 at a signal followed by a timed-out shutdown: the close follows, once. -/
theorem shutdown_order_witness :
    closesOf shutdownState.trace = 1 ∧ shutdownState.ch.closed = true ∧
    shutdownState.trace =
      [.signalReceived, .logShutdownStart,
       .shutdownReturned (some "context deadline exceeded"),
       .logShutdownFail "context deadline exceeded", .queueClosed] :=
  ⟨(shutdown_order shutdownSchedule shutdownState (by decide)).1.trans (by decide),
    by decide, by decide⟩

end Livecoding
